import Mathlib

/-!
Verification of the pyqtconfig configuration library (pyqtconfig/config.py)
against its natural-language specification.

The development shallowly embeds the parts of `config.py` that the claims
talk about: the value model of a Python configuration store, the
`ConfigManagerBase` read/write path (`_get`, `_get_default`, `get`, `set`,
`set_many`, `set_metadata`, `get_metadata`, `as_dict`), the XML
import/export (`getXMLConfig`, `setXMLConfig` and the `CONVERT_TYPE_*`
tables), the mapper builders (`build_dict_mapper`, `build_tuple_mapper`),
the hook lookup (`_get_hook`) and the column-distribution arithmetic of
`build_config_layout`.

Python dictionaries are modelled as association lists in insertion order:
assignment `d[k] = v` updates the first entry with key `k` in place and
otherwise appends, exactly like a Python dict preserves insertion order.
Python `None` is the `PyVal.none` value; `x is not None` is `x ≠ PyVal.none`.
-/

/-! ## Python values

Configuration values are Python primitives (str, int, float, bool, None)
or nested lists / tuples / string-keyed dicts of such values, mirroring
the types supported by the `CONVERT_TYPE_TO_XML` table of config.py.

Python floats are in bijection with their shortest `repr` strings and
`float(str(f)) == f` holds in Python 3, so a float is modelled by the
string `str` produces for it; `float()` applied to such a string is the
identity in this model.  No claim performs float arithmetic.
-/

mutual

inductive PyVal where
  | none
  | bool (b : Bool)
  | int (n : Int)
  | float (rep : String)
  | str (s : String)
  | list (xs : PyList)
  | dict (xs : PyDict)
  | tuple (xs : PyList)
  deriving DecidableEq

inductive PyList where
  | nil
  | cons (hd : PyVal) (tl : PyList)
  deriving DecidableEq

inductive PyDict where
  | nil
  | cons (k : String) (v : PyVal) (tl : PyDict)
  deriving DecidableEq

end

/-- Length of an embedded Python list. -/
def PyList.length : PyList → Nat
  | .nil => 0
  | .cons _ tl => 1 + tl.length

/-- Keys of an embedded Python dict, in order. -/
def PyDict.keys : PyDict → List String
  | .nil => []
  | .cons k _ tl => k :: tl.keys

/-! ## Python dict operations on association lists (string keys) -/

/-- Lookup `d[k]` in a string-keyed Python dict: the unique (first) entry
whose key equals `k`. -/
def dictLookup (d : List (String × α)) (k : String) : Option α :=
  match d with
  | [] => Option.none
  | p :: rest => if p.1 = k then some p.2 else dictLookup rest k

/-- Membership test `k in d` for a string-keyed Python dict. -/
def dictContains (d : List (String × α)) (k : String) : Bool :=
  match d with
  | [] => false
  | p :: rest => p.1 == k || dictContains rest k

/-- Assignment `d[k] = v` on a string-keyed Python dict: update the entry
in place when the key is present (insertion order is preserved),
otherwise append a new entry. -/
def dictSet (d : List (String × α)) (k : String) (v : α) : List (String × α) :=
  match d with
  | [] => [(k, v)]
  | p :: rest => if p.1 = k then (k, v) :: rest else p :: dictSet rest k v

theorem dictLookup_dictSet_self (d : List (String × α)) (k : String) (v : α) :
    dictLookup (dictSet d k v) k = some v := by
  induction d with
  | nil => simp [dictSet, dictLookup]
  | cons p rest ih =>
    by_cases h : p.1 = k
    · simp [dictSet, dictLookup, h]
    · simp [dictSet, dictLookup, h, ih]

theorem dictLookup_dictSet_ne (d : List (String × α)) (k k' : String) (v : α)
    (h : k' ≠ k) : dictLookup (dictSet d k v) k' = dictLookup d k' := by
  have hk : ¬ k = k' := fun hh => h hh.symm
  induction d with
  | nil => simp [dictSet, dictLookup, hk]
  | cons p rest ih =>
    by_cases hp : p.1 = k
    · simp [dictSet, dictLookup, hp, hk]
    · by_cases hp' : p.1 = k'
      · simp [dictSet, dictLookup, hp, hp', h]
      · simp [dictSet, dictLookup, hp, hp', ih]

theorem dictLookup_eq_none_of_not_contains (d : List (String × α)) (k : String)
    (h : dictContains d k = false) : dictLookup d k = Option.none := by
  induction d with
  | nil => rfl
  | cons p rest ih =>
    simp only [dictContains, Bool.or_eq_false_iff, beq_eq_false_iff_ne, ne_eq] at h
    simp only [dictLookup, if_neg h.1, ih h.2]

/-! ## ConfigManager state

State of a `ConfigManager` (the dict-backed `ConfigManagerBase`
subclass): `config`, `defaults` and `eventhooks` are plain dicts
(config.py lines 1070-1093), `metadata` models `_metadata`.

A registered handler widget (`add_handler`, lines 881-960) is modelled as
a value cell per key: `handler.getter()` reads the cell,
`handler.setter(v)` stores `v` in the cell and synchronously fires the
widget's change signal, to which `add_handler` connects
`lambda: self.set(key, handler.getter(), trigger_handler=False)`
(lines 939-941).  The display/storage mapper of the modelled widget is
the identity (the `add_handler` default).
-/

structure ConfigState where
  config : List (String × PyVal)
  defaults : List (String × PyVal)
  eventhooks : List (String × Nat)
  handlers : List (String × PyVal)
  metadata : List (String × List (String × PyVal))
  deriving DecidableEq

def RECALCULATE_ALL : Nat := 1

def RECALCULATE_VIEW : Nat := 2

/-- ConfigManager._get (config.py lines 1084-1089): `self.config[key]`,
with any lookup failure returning `None`.  A stored `None` and an absent
key are indistinguishable in its result, exactly as in the source. -/
def cmGet (st : ConfigState) (key : String) : PyVal :=
  (dictLookup st.config key).getD PyVal.none

/-- ConfigManagerBase._get_default (config.py lines 676-681):
`self.defaults[key]`, with any lookup failure returning `None`. -/
def cmGetDefault (st : ConfigState) (key : String) : PyVal :=
  (dictLookup st.defaults key).getD PyVal.none

/-- ConfigManagerBase.get (config.py lines 684-698):
`v = self._get(key); if v is not None: return v; return self._get_default(key)`. -/
def cmGetPub (st : ConfigState) (key : String) : PyVal :=
  let v := cmGet st key
  if v ≠ PyVal.none then v else cmGetDefault st key

/-! ## Claim C1 and C9: the read path -/

/-- C1 counterexample state: `config = {"k": None}`, `defaults = {"k": 5}`. -/
def c1State : ConfigState :=
  ⟨[("k", PyVal.none)], [("k", PyVal.int 5)], [], [], []⟩

/-- C1 (counterexample): the claim says `get(k)` returns the value stored
in `config` whenever `config` contains `k`.  It does not: when the stored
value is `None` the read path falls through to the default.  With
`config = {"k": None}` and `defaults = {"k": 5}`, `config` contains
`"k"` with stored value `None`, yet `get("k")` returns `5 ≠ None`. -/
theorem claim_C1_counterexample :
    dictLookup c1State.config "k" = some PyVal.none ∧
      cmGetPub c1State "k" ≠ PyVal.none := by
  constructor
  · rfl
  · decide

/-- C1 (amended): `get(k)` returns the stored value when `config` contains
`k` with a value other than `None`; when `config` lacks `k` or stores
`None` for it, `get(k)` returns the defaults value for `k`, and `None`
when `defaults` lacks `k` as well. -/
theorem claim_C1 (st : ConfigState) (k : String) :
    (∀ v, dictLookup st.config k = some v → v ≠ PyVal.none → cmGetPub st k = v) ∧
      ((dictLookup st.config k = Option.none ∨ dictLookup st.config k = some PyVal.none) →
        cmGetPub st k = (dictLookup st.defaults k).getD PyVal.none) := by
  constructor
  · intro v hv hne
    simp only [cmGetPub, cmGet, hv, Option.getD_some]
    simp [hne]
  · intro h
    rcases h with h | h <;> simp [cmGetPub, cmGet, cmGetDefault, h]

/-- C1 witness: the amended theorem applied at a concrete state, with
`config = {"a": 1, "b": None}` and `defaults = {"b": 7}`. -/
theorem claim_C1_witness :
    cmGetPub ⟨[("a", PyVal.int 1), ("b", PyVal.none)], [("b", PyVal.int 7)], [], [], []⟩ "a"
        = PyVal.int 1 ∧
      cmGetPub ⟨[("a", PyVal.int 1), ("b", PyVal.none)], [("b", PyVal.int 7)], [], [], []⟩ "b"
        = PyVal.int 7 := by
  constructor
  · exact (claim_C1 ⟨[("a", PyVal.int 1), ("b", PyVal.none)], [("b", PyVal.int 7)], [], [], []⟩
      "a").1 (PyVal.int 1) (by rfl) (by decide)
  · exact (claim_C1 ⟨[("a", PyVal.int 1), ("b", PyVal.none)], [("b", PyVal.int 7)], [], [], []⟩
      "b").2 (Or.inr (by rfl))

/-- C9 (confirmed): a stored `None` is indistinguishable from an absent
key through the read path; if `config` holds `None` for `k` then `get(k)`
returns exactly what `_get_default(k)` returns (the default, or `None`
when there is none), just as if `k` were absent from `config`. -/
theorem claim_C9 (st : ConfigState) (k : String)
    (h : dictLookup st.config k = some PyVal.none ∨ dictLookup st.config k = Option.none) :
    cmGetPub st k = cmGetDefault st k := by
  rcases h with h | h <;> simp [cmGetPub, cmGet, h]

/-- C9 witness: with `config = {"k": None}` and `defaults = {"k": 5}`,
`get("k")` returns the default `5`. -/
theorem claim_C9_witness : cmGetPub c1State "k" = PyVal.int 5 := by
  have := claim_C9 c1State "k" (Or.inl (by rfl))
  simpa [cmGetDefault, c1State, dictLookup] using this

/-! ## ConfigManagerBase.set and set_many -/

/-- Flag emitted for a key: `self.eventhooks[key] if key in self.eventhooks
else RECALCULATE_ALL` (config.py lines 751-753). -/
def eventhookFor (st : ConfigState) (key : String) : Nat :=
  (dictLookup st.eventhooks key).getD RECALCULATE_ALL

/-- ConfigManager._set (config.py lines 1091-1093): `self.config[key] = value`. -/
def cmSetRaw (st : ConfigState) (key : String) (v : PyVal) : ConfigState :=
  { st with config := dictSet st.config key v }

/-- Result of one (possibly re-entrant) `set` call: the returned Bool, the
resulting state, the arguments of the `updated.emit` calls in order, and
the number of `_set` (store) and `handler.setter` (widget) invocations. -/
structure SetRes where
  ok : Bool
  st : ConfigState
  emits : List Nat
  storeWrites : Nat
  widgetWrites : Nat
  deriving DecidableEq

/-- ConfigManagerBase.set with `trigger_handler=False` (config.py lines
719-755): the early return `if old is not None and old == value`, then
`self._set(key, value)`; the handler block is skipped because
`trigger_handler and key in self.handlers` is false, and the update
notification fires when `trigger_update` is true. -/
def cmSetNH (st : ConfigState) (key : String) (v : PyVal) (triggerUpdate : Bool) : SetRes :=
  let old := cmGet st key
  if old ≠ PyVal.none ∧ old = v then
    ⟨false, st, [], 0, 0⟩
  else
    let st1 := cmSetRaw st key v
    ⟨true, st1, if triggerUpdate then [eventhookFor st1 key] else [], 1, 0⟩

/-- ConfigManagerBase.set with `trigger_handler=True` (config.py lines
719-755).  After `self._set(key, value)`, when a handler is registered for
`key` and its getter value differs from `self._get(key)`, the setter runs:
the widget cell is written and the widget's change signal synchronously
invokes the callback connected by add_handler (line 939),
`self.set(key, handler.getter(), trigger_handler=False)` — note the
callback leaves `trigger_update` at its default `True`.  Finally the
update notification fires when `trigger_update` is true. -/
def cmSet (st : ConfigState) (key : String) (v : PyVal)
    (triggerHandler triggerUpdate : Bool) : SetRes :=
  let old := cmGet st key
  if old ≠ PyVal.none ∧ old = v then
    ⟨false, st, [], 0, 0⟩
  else
    let st1 := cmSetRaw st key v
    match triggerHandler, dictLookup st1.handlers key with
    | true, some w =>
      if w ≠ cmGet st1 key then
        let stW := { st1 with handlers := dictSet st1.handlers key (cmGet st1 key) }
        let r := cmSetNH stW key (cmGet st1 key) true
        ⟨true, r.st, r.emits ++ (if triggerUpdate then [eventhookFor r.st key] else []),
          1 + r.storeWrites, 1⟩
      else
        ⟨true, st1, if triggerUpdate then [eventhookFor st1 key] else [], 1, 0⟩
    | _, _ =>
      ⟨true, st1, if triggerUpdate then [eventhookFor st1 key] else [], 1, 0⟩

/-- The loop body of ConfigManagerBase.set_many (config.py lines 855-858):
`u = self.set(k, v, trigger_update=False); has_updated = has_updated or u`,
accumulating state, the `has_updated` flag and every emitted notification. -/
def setManyFold (st : ConfigState) : List (String × PyVal) → (Bool × ConfigState × List Nat)
  | [] => (false, st, [])
  | (k, v) :: rest =>
    let r := cmSet st k v true false
    let f := setManyFold r.st rest
    (r.ok || f.1, f.2.1, r.emits ++ f.2.2)

/-- ConfigManagerBase.set_many (config.py lines 841-863): run the loop,
then `if has_updated and trigger_update: self.updated.emit(RECALCULATE_ALL)`. -/
def cmSetMany (st : ConfigState) (kvs : List (String × PyVal)) (triggerUpdate : Bool) :
    Bool × ConfigState × List Nat :=
  let f := setManyFold st kvs
  (f.1, f.2.1, f.2.2 ++ (if f.1 && triggerUpdate then [RECALCULATE_ALL] else []))

/-- Spec-level predicate: some key of the list, processed in order, finds
no non-None stored value equal to its new value at the state reached when
it is processed (that is, the corresponding `set` call reports an update). -/
def anyChange : ConfigState → List (String × PyVal) → Bool
  | _, [] => false
  | st, (k, v) :: rest =>
    !(decide (cmGet st k ≠ PyVal.none ∧ cmGet st k = v)) ||
      anyChange (cmSet st k v true false).st rest

theorem cmSetNH_eventhooks (st : ConfigState) (key : String) (v : PyVal) (tu : Bool) :
    (cmSetNH st key v tu).st.eventhooks = st.eventhooks := by
  simp only [cmSetNH]
  split
  · rfl
  · rfl

theorem cmSet_eventhooks (st : ConfigState) (key : String) (v : PyVal) (th tu : Bool) :
    (cmSet st key v th tu).st.eventhooks = st.eventhooks := by
  simp only [cmSet]
  split
  · rfl
  · split
    · split
      · rw [cmSetNH_eventhooks]
        rfl
      · rfl
    · rfl

theorem cmSet_handlers_nil (st : ConfigState) (key : String) (v : PyVal) (th tu : Bool)
    (h : st.handlers = []) :
    (cmSet st key v th tu).st.handlers = [] ∧
      (tu = false → (cmSet st key v th tu).emits = []) := by
  have hnone : dictLookup (cmSetRaw st key v).handlers key = (Option.none : Option PyVal) := by
    show dictLookup st.handlers key = Option.none
    rw [h]
    rfl
  cases th
  · simp only [cmSet]
    split
    · exact ⟨h, fun _ => rfl⟩
    · refine ⟨h, fun htu => ?_⟩
      subst htu
      rfl
  · simp only [cmSet, hnone]
    split
    · exact ⟨h, fun _ => rfl⟩
    · refine ⟨h, fun htu => ?_⟩
      subst htu
      rfl

theorem cmSet_ok (st : ConfigState) (k : String) (v : PyVal) (th tu : Bool) :
    (cmSet st k v th tu).ok = !(decide (cmGet st k ≠ PyVal.none ∧ cmGet st k = v)) := by
  by_cases hg : cmGet st k ≠ PyVal.none ∧ cmGet st k = v
  · simp only [cmSet, if_pos hg]
    rw [decide_eq_true hg]
    rfl
  · simp only [cmSet, if_neg hg]
    rcases hL : dictLookup (cmSetRaw st k v).handlers k with _ | w
    · cases th <;> simp [hL, hg]
    · cases th
      · simp [hg]
      · simp only [hL]
        split <;> simp [hg]

theorem setManyFold_no_handlers (kvs : List (String × PyVal)) (st : ConfigState)
    (h : st.handlers = []) :
    (setManyFold st kvs).2.2 = [] ∧ (setManyFold st kvs).2.1.handlers = [] ∧
      (setManyFold st kvs).1 = anyChange st kvs := by
  induction kvs generalizing st with
  | nil => exact ⟨rfl, h, rfl⟩
  | cons p rest ih =>
    obtain ⟨hh, he⟩ := cmSet_handlers_nil st p.1 p.2 true false h
    obtain ⟨ih1, ih2, ih3⟩ := ih (cmSet st p.1 p.2 true false).st hh
    refine ⟨?_, ?_, ?_⟩
    · show (cmSet st p.1 p.2 true false).emits ++ _ = []
      rw [he rfl, ih1]
      rfl
    · exact ih2
    · show ((cmSet st p.1 p.2 true false).ok || _) = anyChange st (p :: rest)
      rw [cmSet_ok, ih3]
      show _ = anyChange st ((p.1, p.2) :: rest)
      rw [anyChange]

theorem cmSet_emits (st : ConfigState) (k : String) (v : PyVal)
    (hg : ¬(cmGet st k ≠ PyVal.none ∧ cmGet st k = v)) :
    (cmSet st k v true true).emits = [eventhookFor st k] ∨
      (v = PyVal.none ∧
        (cmSet st k v true true).emits = [eventhookFor st k, eventhookFor st k]) := by
  simp only [cmSet, if_neg hg]
  rcases hL : dictLookup (cmSetRaw st k v).handlers k with _ | w
  · simp only [hL]
    exact Or.inl rfl
  · simp only [hL]
    split
    · rename_i hw
      by_cases hv : v = PyVal.none
      · subst hv
        right
        refine ⟨rfl, ?_⟩
        simp [cmSetNH, cmGet, cmSetRaw, dictLookup_dictSet_self, eventhookFor]
      · left
        simp [cmSetNH, cmGet, cmSetRaw, dictLookup_dictSet_self, hv, eventhookFor]
    · exact Or.inl rfl

/-- C2 counterexample state: `config = {"k": None}`. -/
def c2State : ConfigState := ⟨[("k", PyVal.none)], [], [], [], []⟩

/-- C2 (counterexample): with `config = {"k": None}`, the currently stored
value for `"k"` already equals the new value `None`, yet
`set("k", None, trigger_update=True)` returns `True` and emits an
`updated` notification (flag `RECALCULATE_ALL`), because the early-return
guard `old is not None and old == value` does not fire when the stored
value is `None`.  The claim predicted `False` and no notification. -/
theorem claim_C2_counterexample :
    dictLookup c2State.config "k" = some PyVal.none ∧
      ¬((cmSet c2State "k" PyVal.none true true).ok = false ∧
        (cmSet c2State "k" PyVal.none true true).emits = []) := by
  decide

/-- C2 (amended): for `set(k, v)` with `trigger_update=True`: when the
stored value for `k` is non-None and equals `v`, the store is unchanged,
nothing is emitted, and `set` returns `False`.  Otherwise `set` returns
`True` and emits the `updated` notification carrying `eventhooks[k]`
(`RECALCULATE_ALL` when absent) — exactly once when `v` is not `None`;
when `v` is `None` an attached widget's change callback can re-enter
`set` and emit the same flag one extra time.  `set_many(kvs)` with
`trigger_update=True`, on a manager with no registered handlers, emits
exactly one `RECALCULATE_ALL` notification when at least one of its
`set` calls reports an update and none otherwise, and its return value
is that flag. -/
theorem claim_C2 (st : ConfigState) (k : String) (v : PyVal) (kvs : List (String × PyVal)) :
    ((cmGet st k ≠ PyVal.none ∧ cmGet st k = v) →
        cmSet st k v true true = ⟨false, st, [], 0, 0⟩) ∧
      (¬(cmGet st k ≠ PyVal.none ∧ cmGet st k = v) →
        (cmSet st k v true true).ok = true ∧
          (v ≠ PyVal.none → (cmSet st k v true true).emits = [eventhookFor st k]) ∧
          ((cmSet st k v true true).emits = [eventhookFor st k] ∨
            (cmSet st k v true true).emits = [eventhookFor st k, eventhookFor st k])) ∧
      (st.handlers = [] →
        (cmSetMany st kvs true).2.2 = (if anyChange st kvs then [RECALCULATE_ALL] else []) ∧
          (cmSetMany st kvs true).1 = anyChange st kvs) := by
  refine ⟨?_, ?_, ?_⟩
  · intro hg
    simp only [cmSet, if_pos hg]
  · intro hg
    refine ⟨?_, ?_, ?_⟩
    · rw [cmSet_ok]
      simp [hg]
    · intro hv
      rcases cmSet_emits st k v hg with h | ⟨hnone, _⟩
      · exact h
      · exact absurd hnone hv
    · rcases cmSet_emits st k v hg with h | ⟨_, h⟩
      · exact Or.inl h
      · exact Or.inr h
  · intro hh
    obtain ⟨h1, _, h3⟩ := setManyFold_no_handlers kvs st hh
    constructor
    · show (setManyFold st kvs).2.2 ++ _ = _
      rw [h1, h3]
      cases hc : anyChange st kvs <;> simp
    · exact h3

/-- C2 witness: the amended theorem applied at `config = {"k": 1}`; a
second `set` to `1` is a no-op returning `False`, a `set` to `2` returns
`True`, and `set_many({"k": 2})` emits one `RECALCULATE_ALL`. -/
theorem claim_C2_witness :
    cmSet ⟨[("k", PyVal.int 1)], [], [], [], []⟩ "k" (PyVal.int 1) true true =
        ⟨false, ⟨[("k", PyVal.int 1)], [], [], [], []⟩, [], 0, 0⟩ ∧
      (cmSet ⟨[("k", PyVal.int 1)], [], [], [], []⟩ "k" (PyVal.int 2) true true).ok = true ∧
      (cmSetMany ⟨[("k", PyVal.int 1)], [], [], [], []⟩ [("k", PyVal.int 2)] true).2.2 =
        [RECALCULATE_ALL] := by
  refine ⟨?_, ?_, ?_⟩
  · exact (claim_C2 ⟨[("k", PyVal.int 1)], [], [], [], []⟩ "k" (PyVal.int 1) []).1 (by decide)
  · exact (((claim_C2 ⟨[("k", PyVal.int 1)], [], [], [], []⟩ "k" (PyVal.int 2) []).2.1)
      (by decide)).1
  · have h := ((claim_C2 ⟨[("k", PyVal.int 1)], [], [], [], []⟩ "k" (PyVal.int 2)
      [("k", PyVal.int 2)]).2.2) rfl
    rw [h.1]
    decide

/-! ## Claim C7: store / widget propagation -/

/-- Widget-originated change: the user edits the widget registered for
`key` so that it now holds `w`; the widget's change signal invokes the
callback connected by add_handler (config.py lines 939-941),
`self.set(key, handler.getter(), trigger_handler=False)`, which is `set`
with the handler block skipped. -/
def widgetEdit (st : ConfigState) (key : String) (w : PyVal) : SetRes :=
  let stW := { st with handlers := dictSet st.handlers key w }
  cmSetNH stW key w true

theorem cmSetNH_writes (st : ConfigState) (k : String) (v : PyVal) (tu : Bool) :
    (cmSetNH st k v tu).widgetWrites = 0 ∧ (cmSetNH st k v tu).storeWrites ≤ 1 := by
  simp only [cmSetNH]
  split
  · exact ⟨rfl, by simp⟩
  · exact ⟨rfl, by simp⟩

/-- C7 counterexample state: `config = {"k": 5}`, with a handler widget
for `"k"` currently displaying `2`. -/
def c7State : ConfigState := ⟨[("k", PyVal.int 5)], [], [], [("k", PyVal.int 2)], []⟩

/-- C7 (counterexample): a single external update can cause two store
writes.  With `config = {"k": 5}` and a registered widget showing `2`,
the external call `set("k", None)` stores `None`, the widget differs so
its setter runs and fires the change signal, and the re-entrant callback
`set("k", None, trigger_handler=False)` passes the `old is not None`
guard again (old is now `None`) and writes the store a second time. -/
theorem claim_C7_counterexample :
    (cmSet c7State "k" PyVal.none true true).storeWrites = 2 ∧
      ¬((cmSet c7State "k" PyVal.none true true).storeWrites ≤ 1) := by
  decide

/-- C7 (amended): a widget-originated change invokes `set` with
`trigger_handler=False` and therefore performs no widget write and at
most one store write; a store-originated `set(k, v)` calls the registered
widget's setter at most once, and only when the widget's getter value
differs from the newly stored value; a store-originated `set(k, v)` with
`v ≠ None` performs at most one store write — when `v` is `None` the
re-entrant widget callback can write the store a second time, and two
store writes is the overall bound (propagation always terminates). -/
theorem claim_C7 (st : ConfigState) (k : String) (v w : PyVal) :
    (widgetEdit st k w).widgetWrites = 0 ∧
      (widgetEdit st k w).storeWrites ≤ 1 ∧
      (cmSet st k v true true).widgetWrites ≤ 1 ∧
      ((cmSet st k v true true).widgetWrites = 1 →
        ∃ u, dictLookup st.handlers k = some u ∧ u ≠ v) ∧
      (dictLookup st.handlers k = some v → (cmSet st k v true true).widgetWrites = 0) ∧
      (v ≠ PyVal.none → (cmSet st k v true true).storeWrites ≤ 1) ∧
      (cmSet st k v true true).storeWrites ≤ 2 := by
  have hww : (cmSet st k v true true).widgetWrites =
      (if cmGet st k ≠ PyVal.none ∧ cmGet st k = v then 0
       else match dictLookup st.handlers k with
            | some u => if u ≠ v then 1 else 0
            | Option.none => 0) := by
    have hget : cmGet (cmSetRaw st k v) k = v := by
      simp [cmGet, cmSetRaw, dictLookup_dictSet_self]
    by_cases hg : cmGet st k ≠ PyVal.none ∧ cmGet st k = v
    · rw [if_pos hg]
      simp only [cmSet, if_pos hg]
    · rw [if_neg hg]
      simp only [cmSet, if_neg hg]
      rcases hL : dictLookup st.handlers k with _ | u
      · have hL2 : dictLookup (cmSetRaw st k v).handlers k = (Option.none : Option PyVal) := hL
        rw [hL2]
      · have hL2 : dictLookup (cmSetRaw st k v).handlers k = some u := hL
        simp only [hL2, hget]
        by_cases hu : u ≠ v
        · rw [if_pos hu, if_pos hu]
        · rw [if_neg hu, if_neg hu]
  have hsw : (cmSet st k v true true).storeWrites =
      (if cmGet st k ≠ PyVal.none ∧ cmGet st k = v then 0
       else match dictLookup st.handlers k with
            | some u => if u ≠ v then (if v = PyVal.none then 2 else 1) else 1
            | Option.none => 1) := by
    have hget : cmGet (cmSetRaw st k v) k = v := by
      simp [cmGet, cmSetRaw, dictLookup_dictSet_self]
    by_cases hg : cmGet st k ≠ PyVal.none ∧ cmGet st k = v
    · rw [if_pos hg]
      simp only [cmSet, if_pos hg]
    · rw [if_neg hg]
      simp only [cmSet, if_neg hg]
      rcases hL : dictLookup st.handlers k with _ | u
      · have hL2 : dictLookup (cmSetRaw st k v).handlers k = (Option.none : Option PyVal) := hL
        rw [hL2]
      · have hL2 : dictLookup (cmSetRaw st k v).handlers k = some u := hL
        simp only [hL2, hget]
        by_cases hu : u ≠ v
        · rw [if_pos hu, if_pos hu]
          have hgetW : cmGet { cmSetRaw st k v with
              handlers := dictSet (cmSetRaw st k v).handlers k v } k = v := hget
          by_cases hv : v = PyVal.none
          · rw [if_pos hv]
            have hr : ¬(cmGet { cmSetRaw st k v with
                handlers := dictSet (cmSetRaw st k v).handlers k v } k ≠ PyVal.none ∧
                cmGet { cmSetRaw st k v with
                handlers := dictSet (cmSetRaw st k v).handlers k v } k = v) := by
              rw [hgetW, hv]
              simp
            simp only [cmSetNH, if_neg hr]
          · rw [if_neg hv]
            have hr : cmGet { cmSetRaw st k v with
                handlers := dictSet (cmSetRaw st k v).handlers k v } k ≠ PyVal.none ∧
                cmGet { cmSetRaw st k v with
                handlers := dictSet (cmSetRaw st k v).handlers k v } k = v := by
              rw [hgetW]
              exact ⟨hv, rfl⟩
            simp only [cmSetNH, if_pos hr]
        · rw [if_neg hu, if_neg hu]
  refine ⟨(cmSetNH_writes _ k w true).1, (cmSetNH_writes _ k w true).2, ?_, ?_, ?_, ?_, ?_⟩
  · rw [hww]
    split
    · exact Nat.zero_le 1
    · split
      · split <;> simp
      · exact Nat.zero_le 1
  · intro h
    rw [hww] at h
    by_cases hg : cmGet st k ≠ PyVal.none ∧ cmGet st k = v
    · rw [if_pos hg] at h
      exact absurd h (by simp)
    · rw [if_neg hg] at h
      rcases hL : dictLookup st.handlers k with _ | u
      · rw [hL] at h
        exact absurd h (by simp)
      · rw [hL] at h
        by_cases hu : u ≠ v
        · exact ⟨u, rfl, hu⟩
        · have h' : (if u ≠ v then (1 : Nat) else 0) = 1 := h
          rw [if_neg hu] at h'
          exact absurd h' (by simp)
  · intro hsome
    rw [hww]
    split
    · rfl
    · rw [hsome]
      show (if v ≠ v then (1 : Nat) else 0) = 0
      rw [if_neg (fun hc => hc rfl)]
  · intro hv
    rw [hsw, if_neg hv]
    split
    · exact Nat.zero_le 1
    · split
      · split <;> exact Nat.le_refl 1
      · exact Nat.le_refl 1
  · rw [hsw]
    split
    · exact Nat.zero_le 2
    · split
      · split
        · split <;> simp
        · simp
      · simp

/-- C7 witness: with `config = {"k": 5}` and a widget for `"k"` showing
`2`, a user edit of the widget to `9` performs no widget write, and the
store-originated `set("k", 3)` performs at most one store write and finds
the widget value `2 ≠ 3`. -/
theorem claim_C7_witness :
    (widgetEdit c7State "k" (PyVal.int 9)).widgetWrites = 0 ∧
      (cmSet c7State "k" (PyVal.int 3) true true).storeWrites ≤ 1 ∧
      (∃ u, dictLookup c7State.handlers "k" = some u ∧ u ≠ PyVal.int 3) := by
  refine ⟨(claim_C7 c7State "k" (PyVal.int 3) (PyVal.int 9)).1, ?_, ?_⟩
  · exact (claim_C7 c7State "k" (PyVal.int 3) (PyVal.int 9)).2.2.2.2.2.1 (by decide)
  · exact (claim_C7 c7State "k" (PyVal.int 3) (PyVal.int 9)).2.2.2.1 (by decide)

/-! ## Claim C8: as_dict and save -/

/-- ConfigManagerBase.as_dict (config.py lines 1010-1019):
`result_dict = {}; for k, v in self.defaults.items(): result_dict[k] = self.get(k)`. -/
def as_dict (st : ConfigState) : List (String × PyVal) :=
  st.defaults.foldl (fun acc p => dictSet acc p.1 (cmGetPub st p.1)) []

/-- ConfigManager.save (config.py lines 1100-1104) writes
`json.dump(self.as_dict(), f)`: this is the persisted mapping.  The file
system side effect is outside the model. -/
def savePayload (st : ConfigState) : List (String × PyVal) := as_dict st

theorem dictContains_append (d e : List (String × α)) (k : String) :
    dictContains (d ++ e) k = (dictContains d k || dictContains e k) := by
  induction d with
  | nil => simp [dictContains]
  | cons p rest ih => simp [dictContains, ih, Bool.or_assoc]

theorem dictSet_of_not_contains (d : List (String × α)) (k : String) (v : α)
    (h : dictContains d k = false) : dictSet d k v = d ++ [(k, v)] := by
  induction d with
  | nil => rfl
  | cons p rest ih =>
    simp only [dictContains, Bool.or_eq_false_iff] at h
    have hp : ¬ p.1 = k := by
      intro hc
      rw [hc] at h
      simp at h
    simp [dictSet, hp, ih h.2]

theorem foldl_dictSet_fresh (l : List (String × γ)) (f : String → β)
    (acc : List (String × β)) (hnd : (l.map Prod.fst).Nodup)
    (hacc : ∀ p ∈ l, dictContains acc p.1 = false) :
    l.foldl (fun a p => dictSet a p.1 (f p.1)) acc =
      acc ++ l.map (fun p => (p.1, f p.1)) := by
  induction l generalizing acc with
  | nil => simp
  | cons p rest ih =>
    have h1 : dictContains acc p.1 = false := hacc p (List.mem_cons_self p rest)
    have hnd' : (rest.map Prod.fst).Nodup := (List.nodup_cons.mp hnd).2
    have hp : p.1 ∉ rest.map Prod.fst := (List.nodup_cons.mp hnd).1
    have harg : ∀ q ∈ rest, dictContains (acc ++ [(p.1, f p.1)]) q.1 = false := by
      intro q hq
      rw [dictContains_append]
      have hq1 : dictContains acc q.1 = false := hacc q (List.mem_cons_of_mem p hq)
      have hq2 : dictContains [(p.1, f p.1)] q.1 = false := by
        simp only [dictContains, Bool.or_eq_false_iff]
        refine ⟨?_, trivial⟩
        simp only [beq_eq_false_iff_ne, ne_eq]
        intro hc
        exact hp (hc ▸ List.mem_map_of_mem Prod.fst hq)
      rw [hq1, hq2]
      rfl
    show List.foldl _ (dictSet acc p.1 (f p.1)) rest = _
    rw [dictSet_of_not_contains acc p.1 (f p.1) h1]
    rw [ih (acc ++ [(p.1, f p.1)]) hnd' harg]
    simp

theorem dictLookup_map_keyed (l : List (String × γ)) (g : String → β) (k : String) :
    dictLookup (l.map (fun p => (p.1, g p.1))) k =
      (if dictContains l k then some (g k) else Option.none) := by
  induction l with
  | nil => simp [dictLookup, dictContains]
  | cons p rest ih =>
    by_cases hp : p.1 = k
    · simp [dictLookup, dictContains, hp]
    · have hb : dictContains (p :: rest) k = dictContains rest k := by
        simp [dictContains, hp]
      simp only [List.map_cons, dictLookup, if_neg hp, hb]
      exact ih

/-- C8 (confirmed): on a manager whose `defaults` dict has (necessarily)
distinct keys, `as_dict()` has exactly the key set of `defaults`, in
order, and maps every defaults key `k` to `get(k)`; a key with no
defaults entry — in particular any `config` entry without a default — is
absent from it.  `save()` persists exactly this dictionary as JSON. -/
theorem claim_C8 (st : ConfigState) (k : String)
    (hnd : (st.defaults.map Prod.fst).Nodup) :
    ((as_dict st).map Prod.fst = st.defaults.map Prod.fst) ∧
      (dictLookup (as_dict st) k =
        (if dictContains st.defaults k then some (cmGetPub st k) else Option.none)) ∧
      (dictContains st.defaults k = false → dictLookup (as_dict st) k = Option.none) ∧
      savePayload st = as_dict st := by
  have had : as_dict st = st.defaults.map (fun p => (p.1, cmGetPub st p.1)) := by
    show st.defaults.foldl _ [] = _
    rw [foldl_dictSet_fresh st.defaults (fun x => cmGetPub st x) [] hnd
      (fun p _ => rfl)]
    rfl
  refine ⟨?_, ?_, ?_, rfl⟩
  · rw [had]
    simp
  · rw [had, dictLookup_map_keyed]
  · intro h
    rw [had, dictLookup_map_keyed, h]
    rfl

/-- C8 witness: with `defaults = {"a": 1}` and `config = {"a": 2, "x": 3}`,
`as_dict` is `{"a": 2}`; the config-only key `"x"` is omitted. -/
theorem claim_C8_witness :
    (as_dict ⟨[("a", PyVal.int 2), ("x", PyVal.int 3)], [("a", PyVal.int 1)], [], [], []⟩).map
        Prod.fst = ["a"] ∧
      dictLookup (as_dict ⟨[("a", PyVal.int 2), ("x", PyVal.int 3)],
        [("a", PyVal.int 1)], [], [], []⟩) "x" = Option.none := by
  constructor
  · exact (claim_C8 ⟨[("a", PyVal.int 2), ("x", PyVal.int 3)], [("a", PyVal.int 1)],
      [], [], []⟩ "x" (by decide)).1
  · exact (claim_C8 ⟨[("a", PyVal.int 2), ("x", PyVal.int 3)], [("a", PyVal.int 1)],
      [], [], []⟩ "x" (by decide)).2.2.1 (by decide)

/-! ## Claim C10: metadata normalization -/

/-- Module-level `default_metadata` dict (config.py lines 639-643).  The
values `False`/`None` are embedded as Python values; `preferred_handler`
and `preferred_map_dict` defaults are `None`. -/
def default_metadata : List (String × PyVal) :=
  [("prefer_hidden", PyVal.bool false), ("preferred_handler", PyVal.none),
    ("preferred_map_dict", PyVal.none)]

/-- ConfigManagerBase.set_metadata (config.py lines 782-796):
`m = default_metadata.copy(); for k, v in update_dict.items(): if k in
default_metadata: m[k] = v; self._metadata[key] = m`. -/
def set_metadata (st : ConfigState) (key : String)
    (updateDict : List (String × PyVal)) : ConfigState :=
  let m := updateDict.foldl
    (fun m p => if dictContains default_metadata p.1 then dictSet m p.1 p.2 else m)
    default_metadata
  { st with metadata := dictSet st.metadata key m }

/-- ConfigManagerBase.get_metadata (config.py lines 700-705):
`self._metadata[key]`, returning `default_metadata` on `KeyError`. -/
def get_metadata (st : ConfigState) (key : String) : List (String × PyVal) :=
  (dictLookup st.metadata key).getD default_metadata

theorem dictContains_of_keys_eq (d e : List (String × α)) (k : String)
    (h : d.map Prod.fst = e.map Prod.fst) : dictContains d k = dictContains e k := by
  induction d generalizing e with
  | nil =>
    cases e with
    | nil => rfl
    | cons q eq => simp at h
  | cons p rest ih =>
    cases e with
    | nil => simp at h
    | cons q eq =>
      simp only [List.map_cons, List.cons.injEq] at h
      simp only [dictContains, h.1, ih eq h.2]

theorem dictSet_keys_of_contains (d : List (String × α)) (k : String) (v : α)
    (h : dictContains d k = true) : (dictSet d k v).map Prod.fst = d.map Prod.fst := by
  induction d with
  | nil => simp [dictContains] at h
  | cons p rest ih =>
    by_cases hp : p.1 = k
    · simp [dictSet, hp]
    · have hb : (p.1 == k) = false := by simp [hp]
      simp only [dictContains, hb, Bool.false_or] at h
      simp [dictSet, hp, ih h]

theorem metaFold_keys (u : List (String × PyVal)) (m : List (String × PyVal))
    (hm : m.map Prod.fst = default_metadata.map Prod.fst) :
    ((u.foldl
      (fun m p => if dictContains default_metadata p.1 then dictSet m p.1 p.2 else m)
      m).map Prod.fst) = default_metadata.map Prod.fst := by
  induction u generalizing m with
  | nil => exact hm
  | cons p rest ih =>
    show ((rest.foldl _ (if dictContains default_metadata p.1
      then dictSet m p.1 p.2 else m)).map Prod.fst) = _
    by_cases hc : dictContains default_metadata p.1 = true
    · rw [if_pos hc]
      apply ih
      have hmc : dictContains m p.1 = true := by
        rw [dictContains_of_keys_eq m default_metadata p.1 hm]
        exact hc
      rw [dictSet_keys_of_contains m p.1 p.2 hmc]
      exact hm
    · rw [if_neg (by simpa using hc)]
      exact ih m hm

theorem metaFold_lookup_untouched (u : List (String × PyVal)) (m : List (String × PyVal))
    (f : String) (hf : dictContains u f = false) :
    dictLookup (u.foldl
      (fun m p => if dictContains default_metadata p.1 then dictSet m p.1 p.2 else m)
      m) f = dictLookup m f := by
  induction u generalizing m with
  | nil => rfl
  | cons p rest ih =>
    simp only [dictContains, Bool.or_eq_false_iff, beq_eq_false_iff_ne, ne_eq] at hf
    show dictLookup (rest.foldl _ (if dictContains default_metadata p.1
      then dictSet m p.1 p.2 else m)) f = _
    rw [ih _ (by simp [dictContains, hf.2])]
    by_cases hc : dictContains default_metadata p.1 = true
    · rw [if_pos hc]
      exact dictLookup_dictSet_ne m p.1 f p.2 (fun hc2 => hf.1 hc2.symm)
    · rw [if_neg (by simpa using hc)]

/-- C10 (confirmed): metadata is always normalized to the three-field
schema.  After `set_metadata(key, update)`, the stored metadata for `key`
has exactly the fields `prefer_hidden`, `preferred_handler`,
`preferred_map_dict` (in that order) — unknown fields of the update are
discarded — and every field not mentioned in the update keeps its value
from `default_metadata`; `get_metadata` on a key with no stored metadata
returns `default_metadata` itself, that is
`{prefer_hidden: False, preferred_handler: None, preferred_map_dict: None}`. -/
theorem claim_C10 (st : ConfigState) (key : String)
    (updateDict : List (String × PyVal)) (f : String) :
    ((get_metadata (set_metadata st key updateDict) key).map Prod.fst =
      ["prefer_hidden", "preferred_handler", "preferred_map_dict"]) ∧
      (dictContains updateDict f = false →
        dictLookup (get_metadata (set_metadata st key updateDict) key) f =
          dictLookup default_metadata f) ∧
      (dictContains st.metadata key = false → get_metadata st key = default_metadata) := by
  have hstored : get_metadata (set_metadata st key updateDict) key =
      updateDict.foldl
        (fun m p => if dictContains default_metadata p.1 then dictSet m p.1 p.2 else m)
        default_metadata := by
    show (dictLookup (dictSet st.metadata key _) key).getD default_metadata = _
    rw [dictLookup_dictSet_self]
    rfl
  refine ⟨?_, ?_, ?_⟩
  · rw [hstored]
    exact metaFold_keys updateDict default_metadata rfl
  · intro hf
    rw [hstored]
    exact metaFold_lookup_untouched updateDict default_metadata f hf
  · intro h
    show (dictLookup st.metadata key).getD default_metadata = default_metadata
    rw [dictLookup_eq_none_of_not_contains st.metadata key h]
    rfl

/-- C10 witness: updating with an unknown field and one known field
yields exactly the three schema fields, and the untouched
`preferred_handler` keeps its default `None`. -/
theorem claim_C10_witness :
    ((get_metadata (set_metadata ⟨[], [], [], [], []⟩ "k"
        [("bogus", PyVal.int 9), ("prefer_hidden", PyVal.bool true)]) "k").map Prod.fst =
      ["prefer_hidden", "preferred_handler", "preferred_map_dict"]) ∧
      dictLookup (get_metadata (set_metadata ⟨[], [], [], [], []⟩ "k"
        [("bogus", PyVal.int 9), ("prefer_hidden", PyVal.bool true)]) "k")
        "preferred_handler" = some PyVal.none := by
  constructor
  · exact (claim_C10 ⟨[], [], [], [], []⟩ "k"
      [("bogus", PyVal.int 9), ("prefer_hidden", PyVal.bool true)] "preferred_handler").1
  · have h := (claim_C10 ⟨[], [], [], [], []⟩ "k"
      [("bogus", PyVal.int 9), ("prefer_hidden", PyVal.bool true)] "preferred_handler").2.1
      (by decide)
    rw [h]
    rfl

/-! ## Claim C6: _get_hook

The keys of the HOOKS registry (config.py lines 621-637) are Qt widget
classes.  A Python class is modelled by an identifier (`Nat`); the
predicate `instOf h c` models `isinstance(handler, c)` for a handler
whose concrete class is `h`, and `h == c` compares classes by identity,
as Python `==` does on classes.
-/

/-- ConfigManagerBase._get_hook (config.py lines 962-972):
`fst = lambda x: next(x, None)`, first `fst(x for x in self.hooks.keys()
if x == type(handler))`, then `fst(x for x in self.hooks.keys() if
isinstance(handler, x))`, and a `TypeError` when both are `None`. -/
def getHook (hooks : List Nat) (instOf : Nat → Nat → Bool) (htype : Nat) :
    Except String Nat :=
  match hooks.find? (fun x => x == htype) with
  | some cls => Except.ok cls
  | Option.none =>
    match hooks.find? (fun x => instOf htype x) with
    | some cls => Except.ok cls
    | Option.none => Except.error "TypeError: no handler-functions available"

/-- C6 (confirmed): `_get_hook` returns the handler's exact type when that
type is a key of the hooks registry; any type it returns is a registered
key that is either the exact type or one the handler is an instance of;
and it raises `TypeError` exactly when neither the exact type is
registered nor the handler is an instance of any registered type. -/
theorem claim_C6 (hooks : List Nat) (instOf : Nat → Nat → Bool) (htype : Nat) :
    (htype ∈ hooks → getHook hooks instOf htype = Except.ok htype) ∧
      (∀ c, getHook hooks instOf htype = Except.ok c →
        c ∈ hooks ∧ (c = htype ∨ instOf htype c = true)) ∧
      ((∃ e, getHook hooks instOf htype = Except.error e) ↔
        (htype ∉ hooks ∧ ∀ c ∈ hooks, instOf htype c = false)) := by
  have hfind1 : ∀ c, hooks.find? (fun x => x == htype) = some c → c = htype := by
    intro c hc
    simpa using List.find?_some hc
  refine ⟨?_, ?_, ?_⟩
  · intro hmem
    rcases hf : hooks.find? (fun x => x == htype) with _ | c
    · exfalso
      rw [List.find?_eq_none] at hf
      exact absurd (by simp : ((htype == htype) = true)) (hf htype hmem)
    · simp only [getHook, hf]
      rw [hfind1 c hf]
  · intro c hc
    rcases hf : hooks.find? (fun x => x == htype) with _ | c1
    · rcases hg : hooks.find? (fun x => instOf htype x) with _ | c2
      · simp only [getHook, hf, hg] at hc
        exact Except.noConfusion hc
      · simp only [getHook, hf, hg, Except.ok.injEq] at hc
        subst hc
        exact ⟨List.mem_of_find?_eq_some hg, Or.inr (List.find?_some hg)⟩
    · simp only [getHook, hf, Except.ok.injEq] at hc
      subst hc
      exact ⟨List.mem_of_find?_eq_some hf, Or.inl (hfind1 _ hf)⟩
  · constructor
    · rintro ⟨e, he⟩
      rcases hf : hooks.find? (fun x => x == htype) with _ | c1
      · rcases hg : hooks.find? (fun x => instOf htype x) with _ | c2
        · rw [List.find?_eq_none] at hf hg
          constructor
          · intro hmem
            exact absurd (by simp : ((htype == htype) = true)) (hf htype hmem)
          · intro c hcmem
            have := hg c hcmem
            simpa using this
        · simp only [getHook, hf, hg] at he
          exact Except.noConfusion he
      · simp only [getHook, hf] at he
        exact Except.noConfusion he
    · rintro ⟨hmem, hinst⟩
      have hf : hooks.find? (fun x => x == htype) = Option.none := by
        rw [List.find?_eq_none]
        intro x hx hbx
        have hxe : x = htype := by simpa using hbx
        exact hmem (hxe ▸ hx)
      have hg : hooks.find? (fun x => instOf htype x) = Option.none := by
        rw [List.find?_eq_none]
        intro x hx hbx
        rw [hinst x hx] at hbx
        exact Bool.false_ne_true hbx
      exact ⟨"TypeError: no handler-functions available", by simp only [getHook, hf, hg]⟩

/-- C6 witness: with registry keys `{10, 20}` and a handler of class `10`,
the exact key `10` is returned; a handler of class `77` that is an
instance of nothing registered raises `TypeError`; a handler of class
`11` that is an instance of class `20` resolves to `20`. -/
theorem claim_C6_witness :
    getHook [10, 20] (fun h c => h == 11 && c == 20) 10 = Except.ok 10 ∧
      (∃ e, getHook [10, 20] (fun h c => h == 11 && c == 20) 77 = Except.error e) ∧
      (20 ∈ [10, 20] ∧ ((20 : Nat) = 11 ∨ ((11 : Nat) == 11 && (20 : Nat) == 20) = true)) := by
  refine ⟨?_, ?_, ?_⟩
  · exact (claim_C6 [10, 20] (fun h c => h == 11 && c == 20) 10).1 (by decide)
  · exact ((claim_C6 [10, 20] (fun h c => h == 11 && c == 20) 77).2.2).mpr
      ⟨by decide, by decide⟩
  · exact ((claim_C6 [10, 20] (fun h c => h == 11 && c == 20) 11).2.1) 20 (by rfl)

/-! ## Claim C5: mapper builders

Python dicts with arbitrary (hashable) value keys, used by the mapper
builders: lookup, membership and insertion-order-preserving assignment.
-/

def pyLookup (d : List (PyVal × PyVal)) (x : PyVal) : Option PyVal :=
  match d with
  | [] => Option.none
  | p :: rest => if p.1 = x then some p.2 else pyLookup rest x

def pyDictSet (d : List (PyVal × PyVal)) (k v : PyVal) : List (PyVal × PyVal) :=
  match d with
  | [] => [(k, v)]
  | p :: rest => if p.1 = k then (k, v) :: rest else p :: pyDictSet rest k v

/-- Reverse dict `rdict = {v: k for k, v in pairs}` (config.py lines 146
and 181): a dict comprehension over the pairs, later entries overwriting
earlier ones. -/
def invertDict (m : List (PyVal × PyVal)) : List (PyVal × PyVal) :=
  m.foldl (fun acc p => pyDictSet acc p.2 p.1) []

/-- Forward lambda of build_dict_mapper (config.py line 148):
`lambda x: mdict[x] if x in mdict else x`. -/
def build_dict_mapper_fwd (mdict : List (PyVal × PyVal)) (x : PyVal) : PyVal :=
  (pyLookup mdict x).getD x

/-- Reverse lambda of build_dict_mapper (config.py line 149):
`lambda x: rdict[x] if x in rdict else x`. -/
def build_dict_mapper_rev (mdict : List (PyVal × PyVal)) (x : PyVal) : PyVal :=
  (pyLookup (invertDict mdict) x).getD x

/-- Forward lambda of build_tuple_mapper (config.py line 183):
`lambda x: mlist[x] if x in mlist else x`.  `mlist` is the LIST of
(display, stored) 2-tuples, so `x in mlist` tests whether `x` equals one
of the 2-tuples; when it does, `mlist[x]` indexes a list with a tuple
and raises `TypeError`.  A plain display value is never an element of
`mlist`, so it is returned unchanged. -/
def build_tuple_mapper_fwd (mlist : List (PyVal × PyVal)) (x : PyVal) :
    Except String PyVal :=
  if mlist.any (fun p => PyVal.tuple (PyList.cons p.1 (PyList.cons p.2 PyList.nil)) == x) then
    Except.error "TypeError: list indices must be integers or slices, not tuple"
  else
    Except.ok x

/-- Reverse lambda of build_tuple_mapper (config.py line 184):
`lambda x: rdict[x] if x in rdict else x` with `rdict = {v: k for k, v in mlist}`. -/
def build_tuple_mapper_rev (mlist : List (PyVal × PyVal)) (x : PyVal) : PyVal :=
  (pyLookup (invertDict mlist) x).getD x

/-- C5 (code bug): the claim — and the docstring of build_tuple_mapper —
say the returned forward function maps each display value `d` of the
pairs to its stored value `s`.  The code does not: the forward lambda is
`mlist[x] if x in mlist else x` over the list of tuples, so a display
value is never found and is returned unchanged.  At
`mlist = [("A", "a")]` the forward map returns `"A"` instead of `"a"`;
`build_dict_mapper` applied to the same pair does return `"a"`, and the
reverse tuple map correctly returns `"A"` for `"a"`. -/
theorem claim_C5 :
    build_tuple_mapper_fwd [(PyVal.str "A", PyVal.str "a")] (PyVal.str "A") =
        Except.ok (PyVal.str "A") ∧
      Except.ok (PyVal.str "A") ≠
        (Except.ok (PyVal.str "a") : Except String PyVal) ∧
      build_dict_mapper_fwd [(PyVal.str "A", PyVal.str "a")] (PyVal.str "A") =
        PyVal.str "a" ∧
      build_tuple_mapper_rev [(PyVal.str "A", PyVal.str "a")] (PyVal.str "a") =
        PyVal.str "A" := by
  refine ⟨by rfl, ?_, by rfl, by rfl⟩
  intro h
  have := Except.ok.inj h
  simp at this

/-! ## Claim C3: build_config_layout column distribution -/

/-- Exact model of `ceil(a / b)` (config.py line 1260, `from math import
ceil`) for natural `a` and positive `b`.  Python evaluates the quotient
in floating point; on the values reached here the float rounds to a
number with the same ceiling, so the exact rational ceiling is used. -/
def pyCeilDiv (a b : Nat) : Nat := (a + b - 1) / b

/-- Column selection of build_config_layout (config.py lines 1258-1262):
`f_index = 0; for j in range(cols): if (i+1) <= ceil((j+1)*num_items/cols):
f_index = j; break` — the first matching column index, `0` when none
matches. -/
def colFor (n cols i : Nat) : Nat :=
  ((List.range cols).find? (fun j => i + 1 ≤ pyCeilDiv ((j + 1) * n) cols)).getD 0

/-- Number of visible keys that build_config_layout places in column `j`
out of `n` keys distributed over `cols` columns. -/
def blockSize (n cols j : Nat) : Nat :=
  ((Finset.range n).filter (fun i => colFor n cols i = j)).card

theorem find?_range_spec (cols : Nat) (p : Nat → Bool) :
    ((List.range cols).find? p = Option.none ∧ ∀ j, j < cols → p j = false) ∨
      (∃ j, (List.range cols).find? p = some j ∧ j < cols ∧ p j = true ∧
        ∀ j', j' < j → p j' = false) := by
  induction cols with
  | zero => exact Or.inl ⟨rfl, by omega⟩
  | succ c ih =>
    rw [List.range_succ, List.find?_append]
    rcases ih with ⟨hn, hall⟩ | ⟨j, hj, hlt, hp, hmin⟩
    · rw [hn]
      cases hc : p c
      · refine Or.inl ⟨?_, ?_⟩
        · simp [List.find?, hc]
        · intro j hjc
          rcases Nat.lt_or_ge j c with h | h
          · exact hall j h
          · have : j = c := by omega
            rw [this]
            exact hc
      · refine Or.inr ⟨c, ?_, Nat.lt_succ_self c, hc, hall⟩
        simp [List.find?, hc]
    · rw [hj]
      exact Or.inr ⟨j, rfl, Nat.lt_succ_of_lt hlt, hp, hmin⟩

theorem pyCeilDiv_le_mul (a b : Nat) (hb : 1 ≤ b) : a ≤ b * pyCeilDiv a b := by
  have h1 := Nat.div_add_mod (a + b - 1) b
  have h2 := Nat.mod_lt (a + b - 1) (by omega : 0 < b)
  unfold pyCeilDiv
  omega

theorem mul_pyCeilDiv_lt (a b : Nat) (hb : 1 ≤ b) : b * pyCeilDiv a b < a + b := by
  have h1 := Nat.div_add_mod (a + b - 1) b
  unfold pyCeilDiv
  omega

theorem pyCeilDiv_mono (a a' b : Nat) (h : a ≤ a') : pyCeilDiv a b ≤ pyCeilDiv a' b :=
  Nat.div_le_div_right (by omega)

theorem pyCeilDiv_mul_self (n cols : Nat) (hc : 1 ≤ cols) :
    pyCeilDiv (cols * n) cols = n := by
  unfold pyCeilDiv
  rw [show cols * n + cols - 1 = cols * n + (cols - 1) by omega]
  rw [Nat.mul_add_div (by omega : 0 < cols)]
  rw [Nat.div_eq_of_lt (by omega)]
  omega

theorem pyCeilDiv_zero (b : Nat) : pyCeilDiv 0 b = 0 := by
  unfold pyCeilDiv
  cases b with
  | zero => rfl
  | succ b => exact Nat.div_eq_of_lt (by omega)

theorem colFor_least (n cols i : Nat) (hc : 1 ≤ cols) (hi : i < n) :
    colFor n cols i < cols ∧
      i + 1 ≤ pyCeilDiv ((colFor n cols i + 1) * n) cols ∧
      ∀ j', j' < colFor n cols i → ¬(i + 1 ≤ pyCeilDiv ((j' + 1) * n) cols) := by
  have hlast : (decide (i + 1 ≤ pyCeilDiv ((cols - 1 + 1) * n) cols)) = true := by
    rw [show cols - 1 + 1 = cols by omega, pyCeilDiv_mul_self n cols hc]
    exact decide_eq_true (by omega)
  rcases find?_range_spec cols
      (fun j => i + 1 ≤ pyCeilDiv ((j + 1) * n) cols) with ⟨_, hall⟩ | ⟨j, hj, hlt, hp, hmin⟩
  · exact absurd hlast (by rw [hall (cols - 1) (by omega)]; exact Bool.false_ne_true)
  · have hcf : colFor n cols i = j := by
      unfold colFor
      rw [hj]
      rfl
    rw [hcf]
    refine ⟨hlt, of_decide_eq_true hp, ?_⟩
    intro j' hj'
    exact of_decide_eq_false (hmin j' hj')

theorem colFor_eq_iff (n cols i j : Nat) (hc : 1 ≤ cols) (hi : i < n) (hj : j < cols) :
    colFor n cols i = j ↔
      (pyCeilDiv (j * n) cols ≤ i ∧ i + 1 ≤ pyCeilDiv ((j + 1) * n) cols) := by
  obtain ⟨hlt, hP, hmin⟩ := colFor_least n cols i hc hi
  constructor
  · intro he
    subst he
    refine ⟨?_, hP⟩
    rcases Nat.eq_zero_or_pos (colFor n cols i) with h0 | hpos
    · rw [h0]
      rw [show (0 : Nat) * n = 0 by ring, pyCeilDiv_zero]
      omega
    · have hprev := hmin (colFor n cols i - 1) (by omega)
      rw [show colFor n cols i - 1 + 1 = colFor n cols i by omega] at hprev
      omega
  · rintro ⟨hlo, hhi⟩
    by_contra hne
    rcases Nat.lt_or_ge j (colFor n cols i) with hlt2 | hge
    · exact (hmin j hlt2) hhi
    · have hj2 : colFor n cols i < j := by omega
      have hmono : pyCeilDiv ((colFor n cols i + 1) * n) cols ≤ pyCeilDiv (j * n) cols :=
        pyCeilDiv_mono _ _ cols (Nat.mul_le_mul_right n (by omega))
      omega

theorem blockSize_eq (n cols j : Nat) (hc : 1 ≤ cols) (hj : j < cols) :
    blockSize n cols j = pyCeilDiv ((j + 1) * n) cols - pyCeilDiv (j * n) cols := by
  have hset : (Finset.range n).filter (fun i => colFor n cols i = j) =
      Finset.Ico (pyCeilDiv (j * n) cols) (pyCeilDiv ((j + 1) * n) cols) := by
    ext x
    simp only [Finset.mem_filter, Finset.mem_range, Finset.mem_Ico]
    constructor
    · rintro ⟨hx, hcf⟩
      exact (colFor_eq_iff n cols x j hc hx hj).mp hcf
    · rintro ⟨h1, h2⟩
      have hhi_le : pyCeilDiv ((j + 1) * n) cols ≤ n := by
        have hmono := pyCeilDiv_mono ((j + 1) * n) (cols * n) cols
          (Nat.mul_le_mul_right n (by omega))
        rw [pyCeilDiv_mul_self n cols hc] at hmono
        exact hmono
      have hx : x < n := by omega
      exact ⟨hx, (colFor_eq_iff n cols x j hc hx hj).mpr ⟨h1, h2⟩⟩
  unfold blockSize
  rw [hset, Nat.card_Ico]

theorem blockSize_diff (n cols j1 j2 : Nat) (hc : 1 ≤ cols) (h1 : j1 < cols)
    (h2 : j2 < cols) : blockSize n cols j1 ≤ blockSize n cols j2 + 1 := by
  rw [blockSize_eq n cols j1 hc h1, blockSize_eq n cols j2 hc h2]
  have e1 : (j1 + 1) * n = j1 * n + n := by ring
  have e2 : (j2 + 1) * n = j2 * n + n := by ring
  rw [e1, e2]
  have hA1 := mul_pyCeilDiv_lt (j1 * n + n) cols hc
  have hB1 := pyCeilDiv_le_mul (j1 * n) cols hc
  have hA2 := pyCeilDiv_le_mul (j2 * n + n) cols hc
  have hB2 := mul_pyCeilDiv_lt (j2 * n) cols hc
  have hm1 : pyCeilDiv (j1 * n) cols ≤ pyCeilDiv (j1 * n + n) cols :=
    pyCeilDiv_mono _ _ _ (by omega)
  have hm2 : pyCeilDiv (j2 * n) cols ≤ pyCeilDiv (j2 * n + n) cols :=
    pyCeilDiv_mono _ _ _ (by omega)
  have d1 : cols * (pyCeilDiv (j1 * n + n) cols - pyCeilDiv (j1 * n) cols) +
      cols * pyCeilDiv (j1 * n) cols = cols * pyCeilDiv (j1 * n + n) cols := by
    rw [← Nat.mul_add]
    congr 1
    omega
  have d2 : cols * (pyCeilDiv (j2 * n + n) cols - pyCeilDiv (j2 * n) cols) +
      cols * pyCeilDiv (j2 * n) cols = cols * pyCeilDiv (j2 * n + n) cols := by
    rw [← Nat.mul_add]
    congr 1
    omega
  have expand : cols * ((pyCeilDiv (j2 * n + n) cols - pyCeilDiv (j2 * n) cols) + 2) =
      cols * (pyCeilDiv (j2 * n + n) cols - pyCeilDiv (j2 * n) cols) + cols + cols := by
    ring
  have hlt : cols * (pyCeilDiv (j1 * n + n) cols - pyCeilDiv (j1 * n) cols) <
      cols * ((pyCeilDiv (j2 * n + n) cols - pyCeilDiv (j2 * n) cols) + 2) := by
    rw [expand]
    omega
  have := Nat.lt_of_mul_lt_mul_left hlt
  omega

/-- C3 (counterexample): with `n = 8` visible keys and `cols = 5`, the
block sizes are `(2, 2, 1, 2, 1)`: column 3 receives two keys while
column 2, to its left, receives only one — contradicting "any larger
blocks at the left" (and "each column is filled completely before the
next column receives a row", since column 2 stays smaller than the later
column 3). -/
theorem claim_C3_counterexample :
    blockSize 8 5 2 = 1 ∧ blockSize 8 5 3 = 2 ∧
      ¬(∀ j1 j2, j1 ≤ j2 → j2 < 5 → blockSize 8 5 j2 ≤ blockSize 8 5 j1) := by
  refine ⟨by decide, by decide, ?_⟩
  intro h
  have h23 := h 2 3 (by omega) (by omega)
  rw [(by decide : blockSize 8 5 3 = 2), (by decide : blockSize 8 5 2 = 1)] at h23
  omega

/-- C3 (amended): for `cols ≥ 1` and `i < n`, build_config_layout assigns
the i-th key (0-based) to the first column index `j` with
`i+1 ≤ ceil((j+1)*n/cols)`; consequently column `j` receives exactly the
contiguous key range `[ceil(j*n/cols), ceil((j+1)*n/cols))`, the column
index is monotone in the key index (each column receives all its rows
before any later column receives one), and any two block sizes differ by
at most one — but the larger blocks need not all be at the left. -/
theorem claim_C3 (n cols i : Nat) (hc : 1 ≤ cols) (hi : i < n) :
    (colFor n cols i < cols ∧
      i + 1 ≤ pyCeilDiv ((colFor n cols i + 1) * n) cols ∧
      ∀ j', j' < colFor n cols i → ¬(i + 1 ≤ pyCeilDiv ((j' + 1) * n) cols)) ∧
      (∀ j, j < cols → (colFor n cols i = j ↔
        pyCeilDiv (j * n) cols ≤ i ∧ i + 1 ≤ pyCeilDiv ((j + 1) * n) cols)) ∧
      (∀ i', i ≤ i' → i' < n → colFor n cols i ≤ colFor n cols i') ∧
      (∀ j, j < cols →
        blockSize n cols j = pyCeilDiv ((j + 1) * n) cols - pyCeilDiv (j * n) cols) ∧
      (∀ j1 j2, j1 < cols → j2 < cols →
        blockSize n cols j1 ≤ blockSize n cols j2 + 1) := by
  obtain ⟨hlt, hP, hmin⟩ := colFor_least n cols i hc hi
  refine ⟨⟨hlt, hP, hmin⟩, ?_, ?_, ?_, ?_⟩
  · intro j hj
    exact colFor_eq_iff n cols i j hc hi hj
  · intro i' hle hi'
    by_contra hcon
    push_neg at hcon
    obtain ⟨hlt', hP', _⟩ := colFor_least n cols i' hc hi'
    have hchar := (colFor_eq_iff n cols i (colFor n cols i) hc hi hlt).mp rfl
    have hchar' := (colFor_eq_iff n cols i' (colFor n cols i') hc hi' hlt').mp rfl
    have hmono : pyCeilDiv ((colFor n cols i' + 1) * n) cols ≤
        pyCeilDiv (colFor n cols i * n) cols :=
      pyCeilDiv_mono _ _ cols (Nat.mul_le_mul_right n (by omega))
    omega
  · intro j hj
    exact blockSize_eq n cols j hc hj
  · intro j1 j2 h1 h2
    exact blockSize_diff n cols j1 j2 hc h1 h2

/-- C3 witness: the amended theorem applied at `n = 5`, `cols = 2`,
`i = 2`; the first column holds `ceil(5/2) = 3` keys. -/
theorem claim_C3_witness :
    (colFor 5 2 2 < 2 ∧
      2 + 1 ≤ pyCeilDiv ((colFor 5 2 2 + 1) * 5) 2 ∧
      ∀ j', j' < colFor 5 2 2 → ¬(2 + 1 ≤ pyCeilDiv ((j' + 1) * 5) 2)) ∧
      blockSize 5 2 0 = 3 := by
  refine ⟨(claim_C3 5 2 2 (by decide) (by decide)).1, ?_⟩
  have h := (claim_C3 5 2 2 (by decide) (by decide)).2.2.2.1 0 (by decide)
  rw [h]
  decide

/-! ## Claim C4: XML round-trip

Decimal printing and parsing of integers: `_apply_text_str` stores
`str(cv)` as the element text, and `CONVERT_TYPE_FROM_XML['int']` applies
`int(text)`.  `str` on a Python int produces an optional minus sign
followed by decimal digits, and `int()` parses that form back; the model
implements exactly these canonical forms.
-/

def digitChar (d : Nat) : Char :=
  match d with
  | 0 => '0' | 1 => '1' | 2 => '2' | 3 => '3' | 4 => '4'
  | 5 => '5' | 6 => '6' | 7 => '7' | 8 => '8' | _ => '9'

def digitVal (c : Char) : Nat :=
  match c with
  | '0' => 0 | '1' => 1 | '2' => 2 | '3' => 3 | '4' => 4
  | '5' => 5 | '6' => 6 | '7' => 7 | '8' => 8 | _ => 9

def isDigitChar (c : Char) : Bool :=
  match c with
  | '0' | '1' | '2' | '3' | '4' | '5' | '6' | '7' | '8' | '9' => true
  | _ => false

def natDigits (n : Nat) : List Char :=
  if h : n < 10 then [digitChar n]
  else natDigits (n / 10) ++ [digitChar (n % 10)]
termination_by n
decreasing_by exact Nat.div_lt_self (by omega) (by omega)

def parseDigitsAux (acc : Nat) : List Char → Option Nat
  | [] => some acc
  | c :: cs => if isDigitChar c then parseDigitsAux (acc * 10 + digitVal c) cs else Option.none

/-- Model of Python `str(n)` for an int `n`. -/
def pyIntToString (n : Int) : String :=
  if n < 0 then String.mk ('-' :: natDigits n.natAbs) else String.mk (natDigits n.natAbs)

/-- Model of Python `int(s)` on the canonical strings produced by `str`:
an optional minus sign followed by decimal digits; anything else raises
(`Option.none`). -/
def pyIntParse (s : String) : Option Int :=
  match s.data with
  | [] => Option.none
  | c :: rest =>
    if c = '-' then
      if rest = [] then Option.none
      else (parseDigitsAux 0 rest).map (fun m => -(m : Int))
    else
      (parseDigitsAux 0 (c :: rest)).map (fun m => (m : Int))

theorem digitVal_digitChar (d : Nat) (h : d < 10) : digitVal (digitChar d) = d := by
  interval_cases d <;> rfl

theorem isDigitChar_digitChar (d : Nat) (h : d < 10) :
    isDigitChar (digitChar d) = true := by
  interval_cases d <;> rfl

theorem digitChar_ne_minus (d : Nat) : digitChar d ≠ '-' := by
  unfold digitChar
  split <;> decide

theorem natDigits_ne_nil (n : Nat) : natDigits n ≠ [] := by
  rw [natDigits]
  split
  · exact List.cons_ne_nil _ _
  · exact List.append_ne_nil_of_right_ne_nil _ (List.cons_ne_nil _ _)

theorem parseDigitsAux_cons (acc : Nat) (c : Char) (cs : List Char) :
    parseDigitsAux acc (c :: cs) =
      (if isDigitChar c then parseDigitsAux (acc * 10 + digitVal c) cs
       else Option.none) := rfl

theorem parseDigitsAux_append (acc : Nat) (l1 l2 : List Char) :
    parseDigitsAux acc (l1 ++ l2) =
      match parseDigitsAux acc l1 with
      | some a => parseDigitsAux a l2
      | Option.none => Option.none := by
  induction l1 generalizing acc with
  | nil => rfl
  | cons c cs ih =>
    rw [List.cons_append, parseDigitsAux_cons, parseDigitsAux_cons]
    by_cases hd : isDigitChar c = true
    · rw [if_pos hd, if_pos hd, ih]
    · rw [if_neg hd, if_neg hd]

theorem parseDigitsAux_natDigits (n : Nat) : ∀ acc,
    parseDigitsAux acc (natDigits n) =
      some (acc * 10 ^ (natDigits n).length + n) := by
  induction n using Nat.strong_induction_on with
  | _ n ih =>
    intro acc
    by_cases h : n < 10
    · rw [natDigits, dif_pos h]
      show parseDigitsAux acc [digitChar n] = _
      unfold parseDigitsAux
      rw [if_pos (isDigitChar_digitChar n h)]
      unfold parseDigitsAux
      rw [digitVal_digitChar n h]
      simp
    · rw [natDigits, dif_neg h]
      rw [parseDigitsAux_append]
      have hdiv : n / 10 < n := Nat.div_lt_self (by omega) (by omega)
      rw [ih (n / 10) hdiv acc]
      show parseDigitsAux (acc * 10 ^ (natDigits (n / 10)).length + n / 10)
          [digitChar (n % 10)] = _
      unfold parseDigitsAux
      rw [if_pos (isDigitChar_digitChar _ (Nat.mod_lt n (by omega)))]
      unfold parseDigitsAux
      rw [digitVal_digitChar _ (Nat.mod_lt n (by omega))]
      congr 1
      rw [List.length_append, List.length_singleton, pow_succ]
      have := Nat.div_add_mod n 10
      ring_nf
      omega

theorem parseDigits_natDigits (n : Nat) : parseDigitsAux 0 (natDigits n) = some n := by
  rw [parseDigitsAux_natDigits n 0]
  simp

theorem natDigits_head (m : Nat) : ∃ d tl, d < 10 ∧ natDigits m = digitChar d :: tl := by
  induction m using Nat.strong_induction_on with
  | _ m ih =>
    by_cases h : m < 10
    · exact ⟨m, [], h, by rw [natDigits, dif_pos h]⟩
    · obtain ⟨d, tl, hd, heq⟩ := ih (m / 10) (Nat.div_lt_self (by omega) (by omega))
      refine ⟨d, tl ++ [digitChar (m % 10)], hd, ?_⟩
      rw [natDigits, dif_neg h, heq]
      rfl

theorem pyIntParse_pyIntToString (n : Int) : pyIntParse (pyIntToString n) = some n := by
  by_cases hneg : n < 0
  · rw [pyIntToString, if_pos hneg]
    show pyIntParse ⟨'-' :: natDigits n.natAbs⟩ = some n
    unfold pyIntParse
    show (if ('-' : Char) = '-' then _ else _) = _
    rw [if_pos rfl, if_neg (natDigits_ne_nil n.natAbs), parseDigits_natDigits]
    show some (-(n.natAbs : Int)) = some n
    congr 1
    omega
  · rw [pyIntToString, if_neg hneg]
    obtain ⟨d, tl, hd, heq⟩ := natDigits_head n.natAbs
    rw [heq]
    show pyIntParse ⟨digitChar d :: tl⟩ = some n
    unfold pyIntParse
    show (if digitChar d = '-' then _ else _) = _
    rw [if_neg (digitChar_ne_minus d)]
    rw [show (digitChar d :: tl) = natDigits n.natAbs from heq.symm]
    rw [parseDigits_natDigits]
    show some ((n.natAbs : Int)) = some n
    congr 1
    omega

/-- Model of `str.lower()` (config.py line 123), lowering each character;
the inputs reached here (`str(True)`, `str(False)`) are ASCII. -/
def pyLower (s : String) : String := ⟨s.data.map Char.toLower⟩

/-! XML element trees, as built by `xml.etree.ElementTree`: a tag, an
attribute dict, optional text and a list of children. -/

mutual

inductive XmlE where
  | mk (tag : String) (attrs : List (String × String)) (text : Option String)
    (children : XmlList)
  deriving DecidableEq

inductive XmlList where
  | nil
  | cons (e : XmlE) (tl : XmlList)
  deriving DecidableEq

end

def XmlE.tag : XmlE → String
  | .mk t _ _ _ => t

def XmlE.attrs : XmlE → List (String × String)
  | .mk _ a _ _ => a

def XmlE.text : XmlE → Option String
  | .mk _ _ tx _ => tx

def XmlE.children : XmlE → XmlList
  | .mk _ _ _ c => c

/-- Element.get(name): attribute lookup. -/
def XmlE.get (x : XmlE) (a : String) : Option String := dictLookup x.attrs a

def XmlList.append : XmlList → XmlList → XmlList
  | .nil, ys => ys
  | .cons x xs, ys => .cons x (XmlList.append xs ys)

/-- Element.findall(tag): the children with the given tag, in order. -/
def findChildren (l : XmlList) (tag : String) : List XmlE :=
  match l with
  | .nil => []
  | .cons e tl => if e.tag = tag then e :: findChildren tl tag else findChildren tl tag

/-- The items scanned by `_convert_list_type_from_XML` (config.py line 47):
`vs.findall('ListItem') + vs.findall('ConfigListItem')`. -/
def listItemsOf (x : XmlE) : List XmlE :=
  findChildren x.children "ListItem" ++ findChildren x.children "ConfigListItem"

/-- The items scanned by `_convert_dict_type_from_XML` (config.py line 76). -/
def dictItemsOf (x : XmlE) : List XmlE := findChildren x.children "DictItem"

/-- `type(cv).__name__` for the embedded Python values. -/
def pyTypeName : PyVal → String
  | .none => "NoneType"
  | .bool _ => "bool"
  | .int _ => "int"
  | .float _ => "float"
  | .str _ => "str"
  | .list _ => "list"
  | .dict _ => "dict"
  | .tuple _ => "tuple"

/-- Python `str()` on the primitive values passed to `_apply_text_str`
(config.py lines 101-103); the list/dict/tuple cases are never reached by
the conversion tables. -/
def pyStr : PyVal → String
  | .none => "None"
  | .bool b => if b then "True" else "False"
  | .int n => pyIntToString n
  | .float s => s
  | .str s => s
  | _ => ""

mutual

/-- CONVERT_TYPE_TO_XML dispatch (config.py lines 106-116) on element
`co` and value `cv`: primitives run `_apply_text_str` (`co.text =
str(cv)`); lists and tuples run `_convert_list_type_to_XML`, appending a
`ListItem` sub-element per entry with a `type` attribute; dicts run
`_convert_dict_type_to_XML`, appending `DictItem` sub-elements carrying
`type` and `key` attributes. -/
def convertToXML (co : XmlE) (cv : PyVal) : XmlE :=
  match cv with
  | .list xs => XmlE.mk co.tag co.attrs co.text (co.children.append (listItemsToXML xs))
  | .tuple xs => XmlE.mk co.tag co.attrs co.text (co.children.append (listItemsToXML xs))
  | .dict xs => XmlE.mk co.tag co.attrs co.text (co.children.append (dictItemsToXML xs))
  | v => XmlE.mk co.tag co.attrs (some (pyStr v)) co.children

def listItemsToXML : PyList → XmlList
  | .nil => .nil
  | .cons v tl =>
    .cons (convertToXML (XmlE.mk "ListItem" [("type", pyTypeName v)] Option.none .nil) v)
      (listItemsToXML tl)

def dictItemsToXML : PyDict → XmlList
  | .nil => .nil
  | .cons k v tl =>
    .cons (convertToXML
        (XmlE.mk "DictItem" [("type", pyTypeName v), ("key", k)] Option.none .nil) v)
      (dictItemsToXML tl)

end

/-- Membership test of a type name in CONVERT_TYPE_FROM_XML (config.py
lines 118-128). -/
def isKnownType (t : String) : Bool :=
  t == "str" || t == "unicode" || t == "int" || t == "float" || t == "bool" ||
    t == "list" || t == "tuple" || t == "dict" || t == "NoneType"

/-- The raw value of a list/dict item before type conversion:
`v = xconfig.text` (config.py lines 50 and 79), a string or `None`. -/
def textVal (x : XmlE) : PyVal :=
  match x.text with
  | some s => .str s
  | Option.none => .none

/-- Python `str(x.text)`: `str(None)` is the string `"None"`. -/
def pyStrOfText (t : Option String) : String :=
  match t with
  | some s => s
  | Option.none => "None"

/-- Key membership in an embedded nested Python dict. -/
def pdHasKey : PyDict → String → Bool
  | .nil, _ => false
  | .cons k' _ tl, k => k' == k || pdHasKey tl k

/-! The values of the original config that the round-trip claim covers:
primitives and arbitrarily nested lists and string-keyed dicts of them
(tuples are excluded — the XML encoding turns them into lists — and
nested dicts must have distinct keys, as Python dicts do). -/

mutual

def SupportedV : PyVal → Bool
  | .none => true
  | .bool _ => true
  | .int _ => true
  | .float _ => true
  | .str _ => true
  | .list xs => SupportedL xs
  | .dict xs => SupportedD xs
  | .tuple _ => false

def SupportedL : PyList → Bool
  | .nil => true
  | .cons v tl => SupportedV v && SupportedL tl

def SupportedD : PyDict → Bool
  | .nil => true
  | .cons k v tl => SupportedV v && !(pdHasKey tl k) && SupportedD tl

end

/-- Python dict assignment `d[k] = v` on an embedded nested dict. -/
def pdSet : PyDict → String → PyVal → PyDict
  | .nil, k, v => .cons k v .nil
  | .cons k' v' tl, k, v => if k' = k then .cons k v tl else .cons k' v' (pdSet tl k v)

theorem sizeOf_children_lt (x : XmlE) : sizeOf x.children < sizeOf x := by
  cases x with
  | mk t a tx c =>
    simp [XmlE.children]

theorem sizeOf_list_append (l1 l2 : List XmlE) :
    sizeOf (l1 ++ l2) + 1 = sizeOf l1 + sizeOf l2 := by
  induction l1 with
  | nil =>
    simp only [List.nil_append, List.nil.sizeOf_spec]
    omega
  | cons e tl ih =>
    simp only [List.cons_append, List.cons.sizeOf_spec]
    omega

theorem sizeOf_findChildren_le (l : XmlList) (t : String) :
    sizeOf (findChildren l t) ≤ sizeOf l := by
  match l with
  | .nil => simp [findChildren]
  | .cons e tl =>
    have ih := sizeOf_findChildren_le tl t
    by_cases h : e.tag = t
    · simp only [findChildren, if_pos h, List.cons.sizeOf_spec, XmlList.cons.sizeOf_spec]
      omega
    · simp only [findChildren, if_neg h, XmlList.cons.sizeOf_spec]
      omega

theorem sizeOf_two_filters_le (l : XmlList) (t1 t2 : String) (h : t1 ≠ t2) :
    sizeOf (findChildren l t1 ++ findChildren l t2) ≤ sizeOf l := by
  match l with
  | .nil => simp [findChildren]
  | .cons e tl =>
    have ih := sizeOf_two_filters_le tl t1 t2 h
    by_cases h1 : e.tag = t1
    · have h2 : ¬ e.tag = t2 := by rw [h1]; exact h
      simp only [findChildren, if_pos h1, if_neg h2, List.cons_append,
        List.cons.sizeOf_spec, XmlList.cons.sizeOf_spec]
      simp only [List.cons_append, List.cons.sizeOf_spec] at ih ⊢
      omega
    · by_cases h2 : e.tag = t2
      · simp only [findChildren, if_neg h1, if_pos h2, XmlList.cons.sizeOf_spec]
        have hap := sizeOf_list_append (findChildren tl t1) (e :: findChildren tl t2)
        have hap2 := sizeOf_list_append (findChildren tl t1) (findChildren tl t2)
        simp only [List.cons.sizeOf_spec] at hap
        omega
      · simp only [findChildren, if_neg h1, if_neg h2, XmlList.cons.sizeOf_spec]
        omega

theorem sizeOf_listItemsOf_lt (x : XmlE) : sizeOf (listItemsOf x) < sizeOf x := by
  have h1 := sizeOf_two_filters_le x.children "ListItem" "ConfigListItem" (by decide)
  have h2 := sizeOf_children_lt x
  unfold listItemsOf
  omega

theorem sizeOf_dictItemsOf_lt (x : XmlE) : sizeOf (dictItemsOf x) < sizeOf x := by
  have h1 := sizeOf_findChildren_le x.children "DictItem"
  have h2 := sizeOf_children_lt x
  unfold dictItemsOf
  omega

mutual

/-- CONVERT_TYPE_FROM_XML dispatch (config.py lines 118-128) for a type
name `t` on element `x`.  `Option.none` models a raised exception (for
example `int(None)` or `int` applied to a non-numeric string). -/
def convertFromXML (t : String) (x : XmlE) : Option PyVal :=
  if t = "str" ∨ t = "unicode" then some (.str (pyStrOfText x.text))
  else if t = "int" then
    match x.text with
    | some s => (pyIntParse s).map PyVal.int
    | Option.none => Option.none
  else if t = "float" then
    match x.text with
    | some s => some (.float s)
    | Option.none => Option.none
  else if t = "bool" then
    match x.text with
    | some s => some (.bool (pyLower s == "true"))
    | Option.none => Option.none
  else if t = "list" ∨ t = "tuple" then
    (decodeItems (listItemsOf x)).map PyVal.list
  else if t = "dict" then
    (decodeDictItems PyDict.nil (dictItemsOf x)).map PyVal.dict
  else if t = "NoneType" then some PyVal.none
  else Option.none
termination_by (sizeOf x, 0)
decreasing_by
  · exact Prod.Lex.left _ _ (sizeOf_listItemsOf_lt x)
  · exact Prod.Lex.left _ _ (sizeOf_dictItemsOf_lt x)

/-- One list/dict item (config.py lines 50-54 and 79-83): the raw text,
replaced by the converted value when the `type` attribute names a known
type. -/
def decodeOne (x : XmlE) : Option PyVal :=
  match x.get "type" with
  | some tt => if isKnownType tt then convertFromXML tt x else some (textVal x)
  | Option.none => some (textVal x)
termination_by (sizeOf x, 1)
decreasing_by
  exact Prod.Lex.right _ (by omega)

/-- The loop of `_convert_list_type_from_XML` (config.py lines 47-55),
collecting the decoded items. -/
def decodeItems : List XmlE → Option PyList
  | [] => some PyList.nil
  | e :: rest =>
    match decodeOne e, decodeItems rest with
    | some v, some tl => some (PyList.cons v tl)
    | _, _ => Option.none
termination_by l => (sizeOf l, 2)
decreasing_by
  · exact Prod.Lex.left _ _ (by simp only [List.cons.sizeOf_spec]; omega)
  · exact Prod.Lex.left _ _ (by simp only [List.cons.sizeOf_spec]; omega)

/-- The loop of `_convert_dict_type_from_XML` (config.py lines 76-84):
`d = {}; for item: d[item.get('key')] = v`.  A missing `key` attribute
(Python would use `None` as the dict key) is not representable with
string keys and is modelled as a failure; it never arises on trees
produced by the encoder. -/
def decodeDictItems (acc : PyDict) : List XmlE → Option PyDict
  | [] => some acc
  | e :: rest =>
    match e.get "key", decodeOne e with
    | some k, some v => decodeDictItems (pdSet acc k v) rest
    | _, _ => Option.none
termination_by l => (sizeOf l, 2)
decreasing_by
  · exact Prod.Lex.left _ _ (by simp only [List.cons.sizeOf_spec]; omega)
  · exact Prod.Lex.left _ _ (by simp only [List.cons.sizeOf_spec]; omega)

end

def pdAppend : PyDict → PyDict → PyDict
  | .nil, ys => ys
  | .cons k v tl, ys => .cons k v (pdAppend tl ys)

theorem pdSet_not_mem (acc : PyDict) (k : String) (v : PyVal)
    (h : pdHasKey acc k = false) :
    pdSet acc k v = pdAppend acc (.cons k v .nil) := by
  match acc with
  | .nil => rfl
  | .cons k' v' tl =>
    simp only [pdHasKey, Bool.or_eq_false_iff, beq_eq_false_iff_ne, ne_eq] at h
    have ih := pdSet_not_mem tl k v h.2
    simp only [pdSet, if_neg h.1, pdAppend, ih]

theorem pdAppend_assoc (a b c : PyDict) :
    pdAppend (pdAppend a b) c = pdAppend a (pdAppend b c) := by
  match a with
  | .nil => rfl
  | .cons k v tl =>
    have ih := pdAppend_assoc tl b c
    simp only [pdAppend, ih]

theorem pdHasKey_pdSet (d : PyDict) (k : String) (v : PyVal) (k' : String) :
    pdHasKey (pdSet d k v) k' = ((k == k') || pdHasKey d k') := by
  match d with
  | .nil => simp [pdSet, pdHasKey]
  | .cons k0 v0 tl =>
    have ih := pdHasKey_pdSet tl k v k'
    by_cases h0 : k0 = k
    · simp only [pdSet, if_pos h0, pdHasKey, h0]
      cases hv : (k == k') <;> simp
    · simp only [pdSet, if_neg h0, pdHasKey, ih]
      cases hv : (k0 == k') <;> cases hv2 : (k == k') <;> simp

theorem convertToXML_tag (co : XmlE) (v : PyVal) : (convertToXML co v).tag = co.tag := by
  cases v <;> rfl

theorem convertToXML_attrs (co : XmlE) (v : PyVal) :
    (convertToXML co v).attrs = co.attrs := by
  cases v <;> rfl

theorem isKnown_of_supported (v : PyVal) (h : SupportedV v = true) :
    isKnownType (pyTypeName v) = true := by
  cases v
  case tuple xs => simp [SupportedV] at h
  all_goals rfl

theorem pdAppend_nil (a : PyDict) : pdAppend a .nil = a := by
  match a with
  | .nil => rfl
  | .cons k v tl =>
    have ih := pdAppend_nil tl
    simp only [pdAppend, ih]

theorem findChildren_cons_pos (e : XmlE) (tl : XmlList) (t : String) (h : e.tag = t) :
    findChildren (.cons e tl) t = e :: findChildren tl t := by
  simp only [findChildren, if_pos h]

theorem findChildren_cons_neg (e : XmlE) (tl : XmlList) (t : String) (h : ¬ e.tag = t) :
    findChildren (.cons e tl) t = findChildren tl t := by
  simp only [findChildren, if_neg h]

/-- Reduction of `decodeOne` on an element with a recognized `type`
attribute. -/
theorem decodeOne_known (x : XmlE) (tt : String) (hget : x.get "type" = some tt)
    (hk : isKnownType tt = true) : decodeOne x = convertFromXML tt x := by
  unfold decodeOne
  rw [hget]
  show (if isKnownType tt = true then convertFromXML tt x else some (textVal x)) =
    convertFromXML tt x
  rw [if_pos hk]

mutual

/-- Encoding then decoding a supported value through the
`CONVERT_TYPE_TO_XML` / `CONVERT_TYPE_FROM_XML` tables is the identity,
for any base element with no children (as produced by `SubElement`). -/
theorem convertFrom_convertTo_val (v : PyVal) (h : SupportedV v = true) (co : XmlE)
    (hc : co.children = XmlList.nil) :
    convertFromXML (pyTypeName v) (convertToXML co v) = some v := by
  cases v with
  | none =>
    show convertFromXML "NoneType" (convertToXML co PyVal.none) = some PyVal.none
    unfold convertFromXML
    rw [if_neg (by decide), if_neg (by decide), if_neg (by decide), if_neg (by decide),
      if_neg (by decide), if_neg (by decide), if_pos rfl]
  | bool b =>
    show convertFromXML "bool" (convertToXML co (PyVal.bool b)) = some (PyVal.bool b)
    unfold convertFromXML
    rw [if_neg (by decide), if_neg (by decide), if_neg (by decide), if_pos rfl]
    have htext : (convertToXML co (PyVal.bool b)).text = some (pyStr (PyVal.bool b)) := rfl
    rw [htext]
    cases b <;> rfl
  | int n =>
    show convertFromXML "int" (convertToXML co (PyVal.int n)) = some (PyVal.int n)
    unfold convertFromXML
    rw [if_neg (by decide), if_pos rfl]
    have htext : (convertToXML co (PyVal.int n)).text = some (pyStr (PyVal.int n)) := rfl
    rw [htext]
    show (pyIntParse (pyIntToString n)).map PyVal.int = some (PyVal.int n)
    rw [pyIntParse_pyIntToString]
    rfl
  | float s =>
    show convertFromXML "float" (convertToXML co (PyVal.float s)) = some (PyVal.float s)
    unfold convertFromXML
    rw [if_neg (by decide), if_neg (by decide), if_pos rfl]
    rfl
  | str s =>
    show convertFromXML "str" (convertToXML co (PyVal.str s)) = some (PyVal.str s)
    unfold convertFromXML
    rw [if_pos (Or.inl rfl)]
    rfl
  | list xs =>
    show convertFromXML "list" (convertToXML co (PyVal.list xs)) = some (PyVal.list xs)
    unfold convertFromXML
    rw [if_neg (by decide), if_neg (by decide), if_neg (by decide), if_neg (by decide),
      if_pos (Or.inl rfl)]
    have hli : listItemsOf (convertToXML co (PyVal.list xs)) =
        findChildren (listItemsToXML xs) "ListItem" ++
          findChildren (listItemsToXML xs) "ConfigListItem" := by
      unfold listItemsOf
      have hch : (convertToXML co (PyVal.list xs)).children = listItemsToXML xs := by
        show co.children.append (listItemsToXML xs) = listItemsToXML xs
        rw [hc]
        rfl
      rw [hch]
    rw [hli, decode_listItems xs h]
    rfl
  | dict xs =>
    show convertFromXML "dict" (convertToXML co (PyVal.dict xs)) = some (PyVal.dict xs)
    unfold convertFromXML
    rw [if_neg (by decide), if_neg (by decide), if_neg (by decide), if_neg (by decide),
      if_neg (by decide), if_pos rfl]
    have hdi : dictItemsOf (convertToXML co (PyVal.dict xs)) =
        findChildren (dictItemsToXML xs) "DictItem" := by
      unfold dictItemsOf
      have hch : (convertToXML co (PyVal.dict xs)).children = dictItemsToXML xs := by
        show co.children.append (dictItemsToXML xs) = dictItemsToXML xs
        rw [hc]
        rfl
      rw [hch]
    rw [hdi, decode_dictItems xs PyDict.nil h (fun _ _ => rfl)]
    rfl
  | tuple xs => simp [SupportedV] at h

/-- Decoding the generated `ListItem` children recovers the original list. -/
theorem decode_listItems (xs : PyList) (h : SupportedL xs = true) :
    decodeItems (findChildren (listItemsToXML xs) "ListItem" ++
      findChildren (listItemsToXML xs) "ConfigListItem") = some xs := by
  cases xs with
  | nil => simp [listItemsToXML, findChildren, decodeItems]
  | cons v tl =>
    simp only [SupportedL, Bool.and_eq_true] at h
    obtain ⟨hv, htl⟩ := h
    have htag : (convertToXML (XmlE.mk "ListItem" [("type", pyTypeName v)] Option.none
        XmlList.nil) v).tag = "ListItem" := by
      rw [convertToXML_tag]
      rfl
    have htag2 : ¬ (convertToXML (XmlE.mk "ListItem" [("type", pyTypeName v)] Option.none
        XmlList.nil) v).tag = "ConfigListItem" := by
      rw [convertToXML_tag]
      simp [XmlE.tag]
    rw [show listItemsToXML (.cons v tl) =
        .cons (convertToXML (XmlE.mk "ListItem" [("type", pyTypeName v)] Option.none
          XmlList.nil) v) (listItemsToXML tl) from rfl]
    rw [findChildren_cons_pos _ _ _ htag]
    rw [findChildren_cons_neg _ _ _ htag2]
    rw [List.cons_append]
    have hget : (convertToXML (XmlE.mk "ListItem" [("type", pyTypeName v)] Option.none
        XmlList.nil) v).get "type" = some (pyTypeName v) := by
      unfold XmlE.get
      rw [convertToXML_attrs]
      rfl
    have hone : decodeOne (convertToXML (XmlE.mk "ListItem" [("type", pyTypeName v)]
        Option.none XmlList.nil) v) = some v := by
      rw [decodeOne_known _ (pyTypeName v) hget (isKnown_of_supported v hv)]
      exact convertFrom_convertTo_val v hv _ rfl
    simp only [decodeItems]
    rw [hone, decode_listItems tl htl]

/-- Decoding the generated `DictItem` children extends the accumulator
dict with the original entries. -/
theorem decode_dictItems (xs : PyDict) (acc : PyDict) (h : SupportedD xs = true)
    (hdisj : ∀ k', pdHasKey xs k' = true → pdHasKey acc k' = false) :
    decodeDictItems acc (findChildren (dictItemsToXML xs) "DictItem") =
      some (pdAppend acc xs) := by
  cases xs with
  | nil =>
    rw [show findChildren (dictItemsToXML .nil) "DictItem" = [] from rfl]
    simp only [decodeDictItems]
    rw [pdAppend_nil]
  | cons k v tl =>
    simp only [SupportedD, Bool.and_eq_true] at h
    obtain ⟨⟨hv, hnk⟩, htl⟩ := h
    have htag : (convertToXML (XmlE.mk "DictItem" [("type", pyTypeName v), ("key", k)]
        Option.none XmlList.nil) v).tag = "DictItem" := by
      rw [convertToXML_tag]
      rfl
    rw [show dictItemsToXML (.cons k v tl) =
        .cons (convertToXML (XmlE.mk "DictItem"
          [("type", pyTypeName v), ("key", k)] Option.none XmlList.nil) v)
          (dictItemsToXML tl) from rfl]
    rw [findChildren_cons_pos _ _ _ htag]
    have hkey : (convertToXML (XmlE.mk "DictItem" [("type", pyTypeName v), ("key", k)]
        Option.none XmlList.nil) v).get "key" = some k := by
      unfold XmlE.get
      rw [convertToXML_attrs]
      rfl
    have hget : (convertToXML (XmlE.mk "DictItem" [("type", pyTypeName v), ("key", k)]
        Option.none XmlList.nil) v).get "type" = some (pyTypeName v) := by
      unfold XmlE.get
      rw [convertToXML_attrs]
      rfl
    have hone : decodeOne (convertToXML (XmlE.mk "DictItem"
        [("type", pyTypeName v), ("key", k)] Option.none XmlList.nil) v) = some v := by
      rw [decodeOne_known _ (pyTypeName v) hget (isKnown_of_supported v hv)]
      exact convertFrom_convertTo_val v hv _ rfl
    simp only [decodeDictItems]
    rw [hkey, hone]
    show decodeDictItems (pdSet acc k v) (findChildren (dictItemsToXML tl) "DictItem") =
      some (pdAppend acc (PyDict.cons k v tl))
    have hd2 : ∀ k', pdHasKey tl k' = true → pdHasKey (pdSet acc k v) k' = false := by
      intro k' hk'
      rw [pdHasKey_pdSet]
      have h1 : pdHasKey acc k' = false := by
        refine hdisj k' ?_
        show (k == k' || pdHasKey tl k') = true
        rw [hk']
        simp
      have h2 : (k == k') = false := by
        by_contra hcb
        simp only [Bool.not_eq_false, beq_iff_eq] at hcb
        rw [hcb] at hnk
        rw [hk'] at hnk
        simp at hnk
      rw [h1, h2]
      rfl
    rw [decode_dictItems tl (pdSet acc k v) htl hd2]
    have hmem : pdHasKey acc k = false := by
      refine hdisj k ?_
      show (k == k || pdHasKey tl k) = true
      simp
    rw [pdSet_not_mem acc k v hmem, pdAppend_assoc]
    rfl

end

/-- The `ConfigSetting` children built by getXMLConfig (config.py lines
987-996): one per config entry, with `id` and `type` attributes, then
converted with `CONVERT_TYPE_TO_XML`. -/
def configSettingsToXML : List (String × PyVal) → XmlList
  | [] => .nil
  | (k, v) :: rest =>
    .cons (convertToXML
        (XmlE.mk "ConfigSetting" [("id", k), ("type", pyTypeName v)] Option.none .nil) v)
      (configSettingsToXML rest)

/-- ConfigManagerBase.getXMLConfig (config.py lines 987-996): append a
`Config` sub-element to `root` holding one `ConfigSetting` per config
entry, and return `root`. -/
def getXMLConfig (st : ConfigState) (root : XmlE) : XmlE :=
  XmlE.mk root.tag root.attrs root.text
    (root.children.append
      (XmlList.cons (XmlE.mk "Config" [] Option.none (configSettingsToXML st.config))
        XmlList.nil))

/-- `root.findall('Config/ConfigSetting')`: the `ConfigSetting` children
of the `Config` children of `root`, in document order. -/
def findAllConfigSettings (root : XmlE) : List XmlE :=
  ((findChildren root.children "Config").map
    (fun c => findChildren c.children "ConfigSetting")).join

/-- The parse loop of setXMLConfig (config.py lines 1000-1006).  The
running variable `v` is only reassigned when the `type` attribute names a
known converter; `vprev = Option.none` models it being still unbound, in
which case the assignment `config[id] = v` raises `NameError`.  An absent
`id` attribute (Python would store under the key `None`) is modelled as a
failure; neither case arises on trees produced by getXMLConfig. -/
def psItemVal (e : XmlE) (vprev : Option PyVal) : Option (Option PyVal) :=
  match e.get "type" with
  | some tt => if isKnownType tt then (convertFromXML tt e).map some else some vprev
  | Option.none => some vprev

def parseConfigSettings : List XmlE → Option PyVal → List (String × PyVal) →
    Option (List (String × PyVal))
  | [], _, cfg => some cfg
  | e :: rest, vprev, cfg =>
    match psItemVal e vprev with
    | Option.none => Option.none
    | some Option.none => Option.none
    | some (some v) =>
      match e.get "id" with
      | some k => parseConfigSettings rest (some v) (dictSet cfg k v)
      | Option.none => Option.none

/-- ConfigManagerBase.setXMLConfig (config.py lines 998-1008): parse the
`Config/ConfigSetting` elements into a dict and apply
`set_many(config, trigger_update=False)`; `Option.none` models an
exception escaping the loop. -/
def setXMLConfig (st : ConfigState) (root : XmlE) : Option ConfigState :=
  (parseConfigSettings (findAllConfigSettings root) Option.none []).map
    (fun cfg => (cmSetMany st cfg false).2.1)

theorem foldl_dictSet_pairs (l : List (String × PyVal)) (acc : List (String × PyVal))
    (hnd : (l.map Prod.fst).Nodup)
    (hacc : ∀ p ∈ l, dictContains acc p.1 = false) :
    l.foldl (fun a p => dictSet a p.1 p.2) acc = acc ++ l := by
  induction l generalizing acc with
  | nil => simp
  | cons p rest ih =>
    have h1 : dictContains acc p.1 = false := hacc p (List.mem_cons_self p rest)
    have hnd' : (rest.map Prod.fst).Nodup := (List.nodup_cons.mp hnd).2
    have hp : p.1 ∉ rest.map Prod.fst := (List.nodup_cons.mp hnd).1
    have harg : ∀ q ∈ rest, dictContains (acc ++ [p]) q.1 = false := by
      intro q hq
      rw [dictContains_append]
      have hq1 : dictContains acc q.1 = false := hacc q (List.mem_cons_of_mem p hq)
      have hq2 : dictContains [p] q.1 = false := by
        simp only [dictContains, Bool.or_eq_false_iff]
        refine ⟨?_, trivial⟩
        simp only [beq_eq_false_iff_ne, ne_eq]
        intro hc
        exact hp (hc ▸ List.mem_map_of_mem Prod.fst hq)
      rw [hq1, hq2]
      rfl
    show List.foldl _ (dictSet acc p.1 p.2) rest = _
    rw [show dictSet acc p.1 p.2 = acc ++ [p] from by
      rw [dictSet_of_not_contains acc p.1 p.2 h1]]
    rw [ih (acc ++ [p]) hnd' harg]
    simp

/-- Parsing the generated `ConfigSetting` elements rebuilds the original
config dict. -/
theorem parse_generated (cfg : List (String × PyVal))
    (hsup : ∀ p ∈ cfg, SupportedV p.2 = true) :
    ∀ vprev acc, parseConfigSettings
        (findChildren (configSettingsToXML cfg) "ConfigSetting") vprev acc =
      some (cfg.foldl (fun a p => dictSet a p.1 p.2) acc) := by
  induction cfg with
  | nil =>
    intro vprev acc
    rfl
  | cons p rest ih =>
    intro vprev acc
    obtain ⟨k, v⟩ := p
    have hsv : SupportedV v = true := hsup (k, v) (List.mem_cons_self _ _)
    have hsup' : ∀ q ∈ rest, SupportedV q.2 = true :=
      fun q hq => hsup q (List.mem_cons_of_mem _ hq)
    have htag : (convertToXML (XmlE.mk "ConfigSetting" [("id", k), ("type", pyTypeName v)]
        Option.none XmlList.nil) v).tag = "ConfigSetting" := by
      rw [convertToXML_tag]
      rfl
    rw [show configSettingsToXML ((k, v) :: rest) =
        .cons (convertToXML (XmlE.mk "ConfigSetting"
          [("id", k), ("type", pyTypeName v)] Option.none XmlList.nil) v)
          (configSettingsToXML rest) from rfl]
    rw [findChildren_cons_pos _ _ _ htag]
    have hget : (convertToXML (XmlE.mk "ConfigSetting" [("id", k), ("type", pyTypeName v)]
        Option.none XmlList.nil) v).get "type" = some (pyTypeName v) := by
      unfold XmlE.get
      rw [convertToXML_attrs]
      rfl
    have hid : (convertToXML (XmlE.mk "ConfigSetting" [("id", k), ("type", pyTypeName v)]
        Option.none XmlList.nil) v).get "id" = some k := by
      unfold XmlE.get
      rw [convertToXML_attrs]
      rfl
    have hconv : convertFromXML (pyTypeName v) (convertToXML (XmlE.mk "ConfigSetting"
        [("id", k), ("type", pyTypeName v)] Option.none XmlList.nil) v) = some v :=
      convertFrom_convertTo_val v hsv _ rfl
    have hval : psItemVal (convertToXML (XmlE.mk "ConfigSetting"
        [("id", k), ("type", pyTypeName v)] Option.none XmlList.nil) v) vprev =
        some (some v) := by
      unfold psItemVal
      rw [hget]
      show (if isKnownType (pyTypeName v) = true then
          Option.map some (convertFromXML (pyTypeName v) (convertToXML (XmlE.mk
            "ConfigSetting" [("id", k), ("type", pyTypeName v)] Option.none XmlList.nil)
            v))
        else some vprev) = some (some v)
      rw [if_pos (isKnown_of_supported v hsv), hconv]
      rfl
    unfold parseConfigSettings
    rw [hval, hid]
    show parseConfigSettings (findChildren (configSettingsToXML rest) "ConfigSetting")
        (some v) (dictSet acc k v) = _
    rw [ih hsup' (some v) (dictSet acc k v)]
    rfl

theorem dictContains_dictSet (d : List (String × α)) (k k' : String) (v : α) :
    dictContains (dictSet d k v) k' = ((k == k') || dictContains d k') := by
  induction d with
  | nil => simp [dictSet, dictContains]
  | cons p rest ih =>
    by_cases hp : p.1 = k
    · simp only [dictSet, if_pos hp, dictContains, hp]
      cases hb : (k == k') <;> simp
    · simp only [dictSet, if_neg hp, dictContains, ih]
      cases hb : (k == k') <;> cases hb2 : (p.1 == k') <;> simp

theorem cmSet_fresh_step (st : ConfigState) (k : String) (v : PyVal)
    (hh : st.handlers = []) (hc : dictContains st.config k = false) :
    (cmSet st k v true false).st = { st with config := dictSet st.config k v } := by
  have hold : cmGet st k = PyVal.none := by
    unfold cmGet
    rw [dictLookup_eq_none_of_not_contains st.config k hc]
    rfl
  have hg : ¬(cmGet st k ≠ PyVal.none ∧ cmGet st k = v) := by
    rw [hold]
    intro hcon
    exact hcon.1 rfl
  have hL : dictLookup (cmSetRaw st k v).handlers k = (Option.none : Option PyVal) := by
    show dictLookup st.handlers k = Option.none
    rw [hh]
    rfl
  simp only [cmSet, if_neg hg, hL]
  rfl

theorem setManyFold_fresh (cfg : List (String × PyVal)) :
    ∀ st0 : ConfigState, st0.handlers = [] → (cfg.map Prod.fst).Nodup →
      (∀ p ∈ cfg, dictContains st0.config p.1 = false) →
      (setManyFold st0 cfg).2.1 =
        { st0 with config := cfg.foldl (fun a p => dictSet a p.1 p.2) st0.config } := by
  induction cfg with
  | nil =>
    intro st0 _ _ _
    rfl
  | cons p rest ih =>
    intro st0 hh hnd hacc
    have hstep := cmSet_fresh_step st0 p.1 p.2 hh (hacc p (List.mem_cons_self p rest))
    show (setManyFold (cmSet st0 p.1 p.2 true false).st rest).2.1 = _
    rw [hstep]
    have hnd' : (rest.map Prod.fst).Nodup := (List.nodup_cons.mp hnd).2
    have hp : p.1 ∉ rest.map Prod.fst := (List.nodup_cons.mp hnd).1
    have hacc' : ∀ q ∈ rest,
        dictContains ({ st0 with config := dictSet st0.config p.1 p.2 } :
          ConfigState).config q.1 = false := by
      intro q hq
      show dictContains (dictSet st0.config p.1 p.2) q.1 = false
      rw [dictContains_dictSet]
      have h1 : dictContains st0.config q.1 = false := hacc q (List.mem_cons_of_mem p hq)
      have h2 : (p.1 == q.1) = false := by
        simp only [beq_eq_false_iff_ne, ne_eq]
        intro hcx
        exact hp (hcx ▸ List.mem_map_of_mem Prod.fst hq)
      rw [h1, h2]
      rfl
    rw [ih { st0 with config := dictSet st0.config p.1 p.2 } hh hnd' hacc']
    rfl

/-- C4 (confirmed): the XML encoding round-trips.  For a manager whose
config holds only supported values (primitives and nested lists /
string-keyed dicts of primitives), feeding the element tree produced by
`getXMLConfig` on a fresh root into `setXMLConfig` on a fresh manager
succeeds, and the fresh manager afterwards yields, for every key of the
original config, a value equal to the original (a stored `None` reads
back as `None` through the empty defaults). -/
theorem claim_C4 (st : ConfigState) (k : String) (v : PyVal)
    (hsup : ∀ p ∈ st.config, SupportedV p.2 = true)
    (hnd : (st.config.map Prod.fst).Nodup)
    (hkv : dictLookup st.config k = some v) :
    ∃ st', setXMLConfig ⟨[], [], [], [], []⟩
        (getXMLConfig st (XmlE.mk "root" [] Option.none XmlList.nil)) = some st' ∧
      cmGetPub st' k = v := by
  have happ : XmlList.append XmlList.nil
      (XmlList.cons (XmlE.mk "Config" [] Option.none (configSettingsToXML st.config))
        XmlList.nil) =
      XmlList.cons (XmlE.mk "Config" [] Option.none (configSettingsToXML st.config))
        XmlList.nil := by
    simp only [XmlList.append]
  have hfind : findAllConfigSettings
      (getXMLConfig st (XmlE.mk "root" [] Option.none XmlList.nil)) =
      findChildren (configSettingsToXML st.config) "ConfigSetting" := by
    unfold findAllConfigSettings getXMLConfig
    show ((findChildren (XmlList.append XmlList.nil (XmlList.cons
        (XmlE.mk "Config" [] Option.none (configSettingsToXML st.config)) XmlList.nil))
        "Config").map (fun c => findChildren c.children "ConfigSetting")).join = _
    rw [happ]
    rw [findChildren_cons_pos (XmlE.mk "Config" [] Option.none
      (configSettingsToXML st.config)) XmlList.nil "Config" rfl]
    rw [show findChildren XmlList.nil "Config" = [] from by simp only [findChildren]]
    simp only [List.map_cons, List.map_nil, List.join]
    show findChildren (configSettingsToXML st.config) "ConfigSetting" ++ ([] ++ []) = _
    simp
  have hfold : st.config.foldl (fun a p => dictSet a p.1 p.2) [] = st.config := by
    have h := foldl_dictSet_pairs st.config [] hnd (fun p _ => rfl)
    simpa using h
  unfold setXMLConfig
  rw [hfind, parse_generated st.config hsup Option.none [], hfold]
  refine ⟨(cmSetMany ⟨[], [], [], [], []⟩ st.config false).2.1, rfl, ?_⟩
  have hst : (cmSetMany ⟨[], [], [], [], []⟩ st.config false).2.1 =
      ConfigState.mk st.config [] [] [] [] := by
    show (setManyFold ⟨[], [], [], [], []⟩ st.config).2.1 = _
    rw [setManyFold_fresh st.config ⟨[], [], [], [], []⟩ rfl hnd (fun p _ => rfl)]
    show ConfigState.mk (st.config.foldl (fun a p => dictSet a p.1 p.2) []) [] [] [] [] =
      ConfigState.mk st.config [] [] [] []
    rw [hfold]
  rw [hst]
  simp only [cmGetPub, cmGet, cmGetDefault, hkv, Option.getD_some]
  by_cases hv : v = PyVal.none
  · subst hv
    simp [dictLookup]
  · simp [hv, dictLookup]

/-- C4 witness: the round-trip theorem applied to the concrete config
`{"a": 5, "b": ["x", None], "c": {"k1": True}}` at key `"b"`. -/
theorem claim_C4_witness :
    ∃ st', setXMLConfig ⟨[], [], [], [], []⟩
        (getXMLConfig ⟨[("a", PyVal.int 5),
          ("b", PyVal.list (.cons (.str "x") (.cons .none .nil))),
          ("c", PyVal.dict (.cons "k1" (PyVal.bool true) .nil))], [], [], [], []⟩
          (XmlE.mk "root" [] Option.none XmlList.nil)) = some st' ∧
      cmGetPub st' "b" = PyVal.list (.cons (.str "x") (.cons .none .nil)) :=
  claim_C4 ⟨[("a", PyVal.int 5),
      ("b", PyVal.list (.cons (.str "x") (.cons .none .nil))),
      ("c", PyVal.dict (.cons "k1" (PyVal.bool true) .nil))], [], [], [], []⟩
    "b" (PyVal.list (.cons (.str "x") (.cons .none .nil)))
    (by decide) (by decide) (by decide)
